import Mathlib

/-!
Quote application backend: quote store and account store.

A shallow embedding of `src/Backend/server.js`.

Modelling conventions.

* A quote record is a JavaScript object. The arrays of `quoteCache` hold
  references to such objects and `new Set` compares them by identity, so a
  stored record is a `QuoteObj`: an identity `ref` together with its
  contents `val`. No handler ever assigns to a field of a stored record, so
  the contents of a reference never change and can travel with it.
* `quoteCache.byCategory` is a plain object used as a map from label to
  array. Its own properties are an association list in key insertion order;
  the expression `m[k]` also finds the properties that every plain object
  inherits from `Object.prototype` (`lookup`), and calling `push` or `some`
  on such an inherited value throws.
* The provider, `bcrypt`, `jwt`, the clock, `Math.random`, the built-in
  `String.prototype.toLowerCase` and the success of a file write are inputs
  of the handlers.
* A handler runs without interruption between two `await`s. Only
  registration awaits between its test and its mutation; `AccountEvent`
  gives the two halves as separate steps.
* `JSON.stringify` followed by `JSON.parse` keeps the contents of every
  record and yields objects that did not exist before.
-/

namespace QuoteApp

/-! ## Data model -/

/-- Contents of a quote record: `content`, `author`, `categories` and the
optional `addedBy` of user submissions. -/
structure Quote where
  content : String
  author : String
  categories : List String
  addedBy : Option String
deriving DecidableEq, Repr

/-- A quote object on the heap: the identity of the object and its contents. -/
structure QuoteObj where
  ref : Nat
  val : Quote
deriving DecidableEq, Repr

/-- The `quoteCache` object: `all` and the `byCategory` map. -/
structure QuoteCache where
  all : List QuoteObj
  byCategory : List (String × List QuoteObj)
deriving DecidableEq, Repr

/-- What `JSON.stringify(quoteCache)` writes to `quoteCache.json`. -/
structure SavedCache where
  all : List Quote
  byCategory : List (String × List Quote)
deriving DecidableEq, Repr

/-- The quote side of the server: the cache, the next unused object
identity, and the contents of `quoteCache.json` (`none`: no readable file). -/
structure Server where
  quoteCache : QuoteCache
  nextRef : Nat
  cacheFile : Option SavedCache
deriving DecidableEq, Repr

/-- A record as the provider sends it: `content`, `author` and `tags`
(`none` when the field is absent). -/
structure ProviderQuote where
  content : String
  author : String
  tags : Option (List String)
deriving DecidableEq, Repr

/-- A response: `res.status(status).json(body)`, or a rejection carrying the
status and the error text. -/
inductive Reply (α : Type) where
  | ok (status : Nat) (body : α)
  | error (status : Nat) (message : String)
deriving DecidableEq, Repr

/-! ## Helpers for JavaScript built-ins -/

/-- The array `[...new Set(xs)]`: first occurrences, in order, where two
elements are the same when their keys are equal. -/
def setOf {α β : Type} [DecidableEq β] (key : α → β) (xs : List α) : List α :=
  xs.foldl (fun acc x => if acc.any (fun y => decide (key y = key x)) then acc else acc ++ [x]) []

/-- The own property `k` of the object `m`: `none` when `m` has no own
property of that name. -/
def getBucket (m : List (String × List QuoteObj)) (k : String) : Option (List QuoteObj) :=
  match m with
  | [] => none
  | (k0, xs) :: rest => if k0 = k then some xs else getBucket rest k

/-- Assignment `m[k] = xs`: replaces the value of an existing key, otherwise
adds the key at the end. -/
def setBucket (m : List (String × List QuoteObj)) (k : String) (xs : List QuoteObj) :
    List (String × List QuoteObj) :=
  match m with
  | [] => [(k, xs)]
  | (k0, ys) :: rest => if k0 = k then (k0, xs) :: rest else (k0, ys) :: setBucket rest k xs

/-- The properties that every plain object inherits from `Object.prototype`,
each with the `length` of its value: the number of parameters of the
inherited function, and `none` for `__proto__`, whose value is the prototype
object and has no `length`. -/
def objectPrototype : List (String × Option Nat) :=
  [("constructor", some 1), ("__defineGetter__", some 2), ("__defineSetter__", some 2),
    ("hasOwnProperty", some 1), ("__lookupGetter__", some 1), ("__lookupSetter__", some 1),
    ("isPrototypeOf", some 1), ("propertyIsEnumerable", some 1), ("toString", some 0),
    ("valueOf", some 0), ("__proto__", none), ("toLocaleString", some 0)]

/-- The `length` of the value inherited under the name `k`, when `k` is an
inherited name. -/
def inheritedLength (k : String) : Option (Option Nat) :=
  match objectPrototype.find? (fun kv => decide (kv.1 = k)) with
  | some kv => some kv.2
  | none => none

/-- Whether `k` is a name inherited from `Object.prototype`. -/
def isInherited (k : String) : Bool :=
  (inheritedLength k).isSome

/-- The value of the expression `m[k]`: an array that is an own property, a
value inherited from `Object.prototype` (with its `length`), or
`undefined`. -/
inductive Slot where
  | own (xs : List QuoteObj)
  | inherited (length : Option Nat)
  | undefined
deriving DecidableEq, Repr

/-- The expression `m[k]` on the plain object `m`: an own property hides an
inherited one. -/
def lookup (m : List (String × List QuoteObj)) (k : String) : Slot :=
  match getBucket m k with
  | some xs => Slot.own xs
  | none =>
    match inheritedLength k with
    | some len => Slot.inherited len
    | none => Slot.undefined

/-- The two statements `if (!m[k]) m[k] = []; m[k].push(x)`. An inherited
value is truthy, so no bucket is created, and it has no `push`: the call
throws, which is the result `none`. -/
def pushBucket (m : List (String × List QuoteObj)) (k : String) (x : QuoteObj) :
    Option (List (String × List QuoteObj)) :=
  match lookup m k with
  | Slot.own xs => some (setBucket m k (xs ++ [x]))
  | Slot.undefined => some (setBucket m k [x])
  | Slot.inherited _ => none

/-- Fresh objects for a list of record contents, numbered from `next`. -/
def allocate (next : Nat) : List Quote → List QuoteObj
  | [] => []
  | q :: qs => ⟨next, q⟩ :: allocate (next + 1) qs

/-- What `String.prototype.toLowerCase` does to a string of ASCII characters:
A to Z become a to z. The handlers take the built-in as an argument; this
function stands for it in evaluations whose labels are ASCII. -/
def asciiLower (s : String) : String :=
  String.mk (s.data.map Char.toLower)

/-! ## Seed data and start-up (lines 51-83) -/

/-- The built-in list `fallbackQuotes`. -/
def fallbackQuotes : List Quote :=
  [ ⟨"Be yourself; everyone else is already taken.", "Oscar Wilde", ["wisdom", "inspiration"], none⟩,
    ⟨"The only way to do great work is to love what you do.", "Steve Jobs", ["success", "motivation"], none⟩,
    ⟨"Life is what happens when you're busy making other plans.", "John Lennon", ["life", "wisdom"], none⟩,
    ⟨"In three words I can sum up everything I've learned about life: it goes on.", "Robert Frost", ["life", "wisdom"], none⟩,
    ⟨"The future belongs to those who believe in the beauty of their dreams.", "Eleanor Roosevelt", ["inspiration", "success"], none⟩,
    ⟨"Be the change that you wish to see in the world.", "Mahatma Gandhi", ["inspiration", "wisdom"], none⟩,
    ⟨"Everything you can imagine is real.", "Pablo Picasso", ["creativity", "inspiration"], none⟩,
    ⟨"The best way to predict the future is to create it.", "Abraham Lincoln", ["success", "motivation"], none⟩,
    ⟨"If you tell the truth, you don't have to remember anything.", "Mark Twain", ["wisdom", "humor"], none⟩,
    ⟨"A room without books is like a body without a soul.", "Cicero", ["wisdom", "life"], none⟩,
    ⟨"You miss 100% of the shots you don't take.", "Wayne Gretzky", ["success", "motivation"], none⟩,
    ⟨"Love all, trust a few, do wrong to none.", "William Shakespeare", ["love", "wisdom"], none⟩,
    ⟨"The way to get started is to quit talking and begin doing.", "Walt Disney", ["success", "motivation"], none⟩,
    ⟨"The only impossible journey is the one you never begin.", "Tony Robbins", ["inspiration", "motivation"], none⟩,
    ⟨"The purpose of our lives is to be happy.", "Dalai Lama", ["happiness", "life"], none⟩ ]

/-- The seed objects: the elements of `fallbackQuotes` are objects 0 to 14. -/
def fallbackObjs : List QuoteObj :=
  allocate 0 fallbackQuotes

/-- The constant `categories`: the labels of the seed records, each once. -/
def categories : List String :=
  setOf id (fallbackQuotes.flatMap (fun quote => quote.categories))

/-- The cache after the module body has run: `all` is a copy of the seed
array and every seed label has the bucket of the seed records carrying it. -/
def initialCache : QuoteCache :=
  { all := fallbackObjs
    byCategory := categories.foldl
      (fun m category =>
        setBucket m category (fallbackObjs.filter (fun q => decide (category ∈ q.val.categories))))
      [] }

/-- The server before any request and before any snapshot is read. -/
def initialServer : Server :=
  { quoteCache := initialCache, nextRef := fallbackQuotes.length, cacheFile := none }

/-! ## Persistence of the cache (lines 86-121) -/

/-- The value `JSON.stringify(quoteCache)` serialises: the contents of every
record, references forgotten. -/
def serialise (c : QuoteCache) : SavedCache :=
  { all := c.all.map (fun q => q.val)
    byCategory := c.byCategory.map (fun kv => (kv.1, kv.2.map (fun q => q.val))) }

/-- The function `saveQuoteCache`: a write that fails is logged and leaves the
file as it was. -/
def saveQuoteCache (s : Server) (writeOk : Bool) : Server :=
  if writeOk then { s with cacheFile := some (serialise s.quoteCache) } else s

/-- Lookup `loadedCache.byCategory[category]` in the parsed file. -/
def savedBucket (m : List (String × List Quote)) (k : String) : Option (List Quote) :=
  match m with
  | [] => none
  | (k0, xs) :: rest => if k0 = k then some xs else savedBucket rest k

/-- One round of the `categories.forEach` of `loadQuoteCache`. The state is
the map, the next unused identity, and whether an exception has been thrown
(spreading the `undefined` of a missing existing bucket throws, which ends
the loop and reaches the `catch`). The loop runs over the seed categories,
none of which is an inherited name, so both lookups are lookups of own
properties. -/
def loadCategory (loaded : List (String × List Quote))
    (st : List (String × List QuoteObj) × Nat × Bool) (category : String) :
    List (String × List QuoteObj) × Nat × Bool :=
  match st with
  | (m, next, true) => (m, next, true)
  | (m, next, false) =>
    match savedBucket loaded category with
    | none => (m, next, false)
    | some saved =>
      match getBucket m category with
      | none => (m, next, true)
      | some existing =>
        (setBucket m category (setOf (fun q => q.ref) (existing ++ allocate next saved)),
          next + saved.length, false)

/-- The function `loadQuoteCache`: without a readable file nothing changes;
otherwise `all` becomes `[...new Set([...all, ...loaded.all])]` and each seed
category present in the file gets the same treatment. The records read from
the file are objects made by `JSON.parse`. -/
def loadQuoteCache (s : Server) : Server :=
  match s.cacheFile with
  | none => s
  | some loaded =>
    let all := setOf (fun q => q.ref) (s.quoteCache.all ++ allocate s.nextRef loaded.all)
    let r := categories.foldl (loadCategory loaded.byCategory)
      (s.quoteCache.byCategory, s.nextRef + loaded.all.length, false)
    { s with quoteCache := { all := all, byCategory := r.1 }, nextRef := r.2.1 }

/-! ## GET /api/random-quote (lines 145-184) -/

/-- The record built from a provider response: `tags || []` as categories. -/
def toQuote (p : ProviderQuote) : Quote :=
  { content := p.content, author := p.author, categories := p.tags.getD [], addedBy := none }

/-- The test `q.content === quote.content && q.author === quote.author`. -/
def sameQuote (quote : Quote) (q : QuoteObj) : Bool :=
  decide (q.val.content = quote.content) && decide (q.val.author = quote.author)

/-- The test `q.content === quote.content`. -/
def sameContent (quote : Quote) (q : QuoteObj) : Bool :=
  decide (q.val.content = quote.content)

/-- The loop `categories.forEach(...)` pushing the object `x`: the map when
the loop ends, and whether it ended by a throw. A throw ends the loop and
keeps what the earlier rounds did. -/
def pushAll (x : QuoteObj) :
    List (String × List QuoteObj) → List String → List (String × List QuoteObj) × Bool
  | m, [] => (m, false)
  | m, category :: rest =>
    match pushBucket m category x with
    | none => (m, true)
    | some m1 => pushAll x m1 rest

/-- The map after the loop `quote.categories.forEach(...)`: the object is
pushed to the bucket of each of its categories, a missing bucket being
created first, until a round throws. -/
def addToCategoryCaches (m : List (String × List QuoteObj)) (quote : QuoteObj) :
    List (String × List QuoteObj) :=
  (pushAll quote m quote.val.categories).1

/-- Whether the loop `quote.categories.forEach(...)` throws. -/
def categoryCachesThrow (m : List (String × List QuoteObj)) (quote : QuoteObj) : Bool :=
  (pushAll quote m quote.val.categories).2

/-- The state after lines 150-169: the provider record becomes a new object;
when no record of `all` has its content and author it is pushed to `all` and
to the bucket of each of its categories, until a push throws. -/
def randomMerge (s : Server) (p : ProviderQuote) : Server :=
  let quote : QuoteObj := ⟨s.nextRef, toQuote p⟩
  if s.quoteCache.all.any (sameQuote quote.val) then
    { s with nextRef := s.nextRef + 1 }
  else
    { s with
      quoteCache :=
        { all := s.quoteCache.all ++ [quote]
          byCategory := addToCategoryCaches s.quoteCache.byCategory quote }
      nextRef := s.nextRef + 1 }

/-- Whether lines 150-169 throw: the record is new to `all` and the loop over
its categories meets an inherited name. -/
def randomMergeThrows (s : Server) (p : ProviderQuote) : Bool :=
  !(s.quoteCache.all.any (sameQuote (toQuote p))) &&
    categoryCachesThrow s.quoteCache.byCategory ⟨s.nextRef, toQuote p⟩

/-- The index `Math.floor(Math.random() * n)` for a draw `r`, in exact
arithmetic. -/
def randomIndex (r : ℚ) (n : Nat) : Nat :=
  Int.toNat ⌊r * (n : ℚ)⌋

/-- The handler of `GET /api/random-quote`. `provider` is `none` when the
request to the provider fails or times out; `r` is the value of
`Math.random()`. A throw while merging is caught by the inner `catch` like a
failed request, and the answer is then drawn from `all` as the merge left
it. The body is `none` when `quoteCache.all[randomIndex]` is `undefined`. -/
def randomQuoteHandler (s : Server) (provider : Option ProviderQuote) (r : ℚ) :
    Server × Reply (Option Quote) :=
  match provider with
  | some p =>
    if randomMergeThrows s p then
      (randomMerge s p,
        Reply.ok 200 (((randomMerge s p).quoteCache.all.get?
          (randomIndex r (randomMerge s p).quoteCache.all.length)).map (fun q => q.val)))
    else
      (randomMerge s p, Reply.ok 200 (some (toQuote p)))
  | none =>
    (s, Reply.ok 200 ((s.quoteCache.all.get? (randomIndex r s.quoteCache.all.length)).map
      (fun q => q.val)))

/-! ## GET /api/quotes/category/:category (lines 187-236) -/

/-- One round of the `quotes.forEach` of the category handler: the object is
pushed to the bucket of the requested label unless a record there has its
content, and to `all` unless a record there has its content. -/
def categoryMergeStep (category : String) (c : QuoteCache) (quote : QuoteObj) : QuoteCache :=
  let bucket := (getBucket c.byCategory category).getD []
  let byCategory :=
    if bucket.any (sameContent quote.val) then c.byCategory
    else setBucket c.byCategory category (bucket ++ [quote])
  let all := if c.all.any (sameContent quote.val) then c.all else c.all ++ [quote]
  { all := all, byCategory := byCategory }

/-- The state after lines 194-213: the results become new objects and, when
there is one at least, the bucket of the category is created if
`byCategory[category]` is `undefined` and every object goes through
`categoryMergeStep`. When `byCategory[category]` is an inherited value no
bucket is created and the first `some` throws, before any change. -/
def categoryMerge (s : Server) (category : String) (results : List ProviderQuote) : Server :=
  let quotes := allocate s.nextRef (results.map toQuote)
  if quotes.length > 0 then
    match lookup s.quoteCache.byCategory category with
    | Slot.inherited _ => { s with nextRef := s.nextRef + quotes.length }
    | Slot.undefined =>
      { s with
        quoteCache := quotes.foldl (categoryMergeStep category)
          { all := s.quoteCache.all
            byCategory := setBucket s.quoteCache.byCategory category [] }
        nextRef := s.nextRef + quotes.length }
    | Slot.own _ =>
      { s with
        quoteCache := quotes.foldl (categoryMergeStep category) s.quoteCache
        nextRef := s.nextRef + quotes.length }
  else
    { s with nextRef := s.nextRef + quotes.length }

/-- Whether lines 194-213 throw: there is a result and `byCategory[category]`
is an inherited value. -/
def categoryMergeThrows (s : Server) (category : String) (results : List ProviderQuote) :
    Bool :=
  match results, lookup s.quoteCache.byCategory category with
  | _ :: _, Slot.inherited _ => true
  | _, _ => false

/-- Lines 221-231, the value given to `res.json`: the bucket of the category
when it is an own array and not empty; the inherited value when
`byCategory[category]` is one with a positive `length`, which serialises to
nothing (`none`); otherwise the seed records carrying the category,
otherwise the first five seed records. -/
def cachedCategory (c : QuoteCache) (category : String) : Option (List Quote) :=
  match lookup c.byCategory category with
  | Slot.own (q :: qs) => some ((q :: qs).map (fun x => x.val))
  | Slot.inherited (some (_ + 1)) => none
  | _ =>
    let filteredQuotes := fallbackQuotes.filter (fun q => decide (category ∈ q.categories))
    some (if filteredQuotes.length > 0 then filteredQuotes else fallbackQuotes.take 5)

/-- Lines 191-231 of the category handler, for the lower-cased label
`category`. `provider` is `none` when the request to the provider fails,
otherwise the list `results` of the response. A throw while merging is
caught by the inner `catch` like a failed request. Nothing throws past the
inner `catch`, so the rejection of line 234 is never produced. The body is
`none` when the value given to `res.json` serialises to nothing. -/
def categoryRead (s : Server) (category : String) (provider : Option (List ProviderQuote)) :
    Server × Reply (Option (List Quote)) :=
  match provider with
  | some (p :: ps) =>
    if categoryMergeThrows s category (p :: ps) then
      (categoryMerge s category (p :: ps),
        Reply.ok 200 (cachedCategory (categoryMerge s category (p :: ps)).quoteCache category))
    else
      (categoryMerge s category (p :: ps), Reply.ok 200 (some ((p :: ps).map toQuote)))
  | _ => (s, Reply.ok 200 (cachedCategory s.quoteCache category))

/-- The handler of `GET /api/quotes/category/:category`: line 189 lower-cases
the label with the built-in `toLowerCase`, the rest works on the result. -/
def categoryHandler (toLowerCase : String → String) (s : Server) (label : String)
    (provider : Option (List ProviderQuote)) : Server × Reply (Option (List Quote)) :=
  categoryRead s (toLowerCase label) provider

/-! ## GET /api/categories (lines 239-260) -/

/-- The handler of `GET /api/categories`. `provider` is `none` when the
request fails, otherwise the list `apiCategories` of line 245, the
lower-cased tag names of the response. The handler reads the constant
`categories` and nothing of the cache. -/
def categoriesHandler (_s : Server) (provider : Option (List String)) : Reply (List String) :=
  match provider with
  | some (t :: ts) => Reply.ok 200 (setOf id (categories ++ (t :: ts)))
  | _ => Reply.ok 200 categories

/-! ## POST /api/add-quote (lines 429-465) -/

/-- JavaScript truthiness of an optional string field: present and not empty. -/
def truthy (x : Option String) : Bool :=
  match x with
  | none => false
  | some v => decide (v ≠ "")

/-- The handler of `POST /api/add-quote` for an authenticated user. A field
of the body that is absent is `none`; `writeOk` tells whether the write of
`saveQuoteCache` succeeds. A throw in the loop over the categories comes
after the push to `all`, skips the save and reaches the `catch` of line
461. -/
def addQuoteHandler (s : Server) (content author : Option String)
    (cats : Option (List String)) (username : String) (writeOk : Bool) :
    Server × Reply Quote :=
  if truthy content && truthy author then
    let newQuote : QuoteObj :=
      ⟨s.nextRef,
        { content := content.getD "", author := author.getD "",
          categories := cats.getD [], addedBy := some username }⟩
    let s1 : Server :=
      { s with
        quoteCache :=
          { all := s.quoteCache.all ++ [newQuote]
            byCategory := addToCategoryCaches s.quoteCache.byCategory newQuote }
        nextRef := s.nextRef + 1 }
    if categoryCachesThrow s.quoteCache.byCategory newQuote then
      (s1, Reply.error 500 "Error adding quote")
    else
      (saveQuoteCache s1 writeOk, Reply.ok 201 newQuote.val)
  else
    (s, Reply.error 400 "Content and author are required")

/-! ## Reachable states of the quote store -/

/-- A request, or a start-up action, that can change the quote side. A
category request is given by its lower-cased label. -/
inductive Op where
  | random (p : ProviderQuote)
  | category (category : String) (results : List ProviderQuote)
  | addQuote (content author : Option String) (cats : Option (List String))
      (username : String) (writeOk : Bool)
  | save (writeOk : Bool)
  | load
deriving DecidableEq, Repr

/-- The effect of one operation on the server. -/
def applyOp (s : Server) (op : Op) : Server :=
  match op with
  | Op.random p => (randomQuoteHandler s (some p) 0).1
  | Op.category category results => (categoryRead s category (some results)).1
  | Op.addQuote content author cats username writeOk =>
    (addQuoteHandler s content author cats username writeOk).1
  | Op.save writeOk => saveQuoteCache s writeOk
  | Op.load => loadQuoteCache s

/-- The server after a sequence of operations. -/
def run (s : Server) (ops : List Op) : Server :=
  ops.foldl applyOp s

/-- Operations that merge provider records or submit a user quote. -/
def Op.isMergeOrSubmit (op : Op) : Bool :=
  match op with
  | Op.random _ => true
  | Op.category _ _ => true
  | Op.addQuote _ _ _ _ _ => true
  | _ => false

/-- Operations that merge a random quote or submit a user quote. -/
def Op.isRandomOrSubmit (op : Op) : Bool :=
  match op with
  | Op.random _ => true
  | Op.addQuote _ _ _ _ _ => true
  | _ => false

/-- States reachable from the initial server by random-quote merges, category
merges and user quote submissions. -/
def Reachable (s : Server) : Prop :=
  ∃ ops : List Op, (∀ op ∈ ops, op.isMergeOrSubmit = true) ∧ s = run initialServer ops

/-- The random-quote merge applied to a list of provider records, one record
after the other. -/
def randomMergeAll (s : Server) (ps : List ProviderQuote) : Server :=
  ps.foldl randomMerge s

/-- The category-index property of a cache: every record of every bucket is
an element of `all` and carries the label of the bucket. -/
def CategoryIndexed (c : QuoteCache) : Prop :=
  ∀ (label : String) (bucket : List QuoteObj), getBucket c.byCategory label = some bucket →
    ∀ x ∈ bucket, x ∈ c.all ∧ label ∈ x.val.categories

/-- The part of the category-index property that every merge maintains:
every record of every bucket has its content in `all`. -/
def ContentIndexed (c : QuoteCache) : Prop :=
  ∀ (label : String) (bucket : List QuoteObj), getBucket c.byCategory label = some bucket →
    ∀ x ∈ bucket, c.all.any (sameContent x.val) = true

/-- A category merge on the seed store for the label humor: the first record
has the content of a seed record and another author, the second is new and
carries the tag as the provider spells it. -/
def indexBreakingOps : List Op :=
  [Op.category "humor"
    [⟨"Be yourself; everyone else is already taken.", "Somebody Else", some ["humor"]⟩,
     ⟨"A day without laughter is a day wasted.", "Charlie Chaplin", some ["Humor"]⟩]]

/-- A record has been seen by the category merge of label `k`: `all` holds a
record with its content and so does the bucket of `k`. -/
def Seen (k : String) (c : QuoteCache) (q : Quote) : Prop :=
  c.all.any (sameContent q) = true ∧
    ((getBucket c.byCategory k).getD []).any (sameContent q) = true

/-- A snapshot of `s` restored into a fresh instance: `saveQuoteCache` writes
the cache of `s`, a server started from the seed list finds that file and
runs `loadQuoteCache`. -/
def snapshotRestore (s : Server) : Server :=
  loadQuoteCache { initialServer with cacheFile := (saveQuoteCache s true).cacheFile }

/-- The seed store after a user has submitted a quote in the category zen. -/
def zenServer : Server :=
  (addQuoteHandler initialServer (some "Stay hungry.") (some "Anon") (some ["zen"]) "ann" true).1

/-- A provider record with the content of the first seed record and another
author. -/
def sameContentOtherAuthor : ProviderQuote :=
  ⟨"Be yourself; everyone else is already taken.", "Somebody Else", some ["wisdom"]⟩

/-- A provider record that is new to the seed store, with two tags. -/
def lessIsMore : ProviderQuote :=
  ⟨"Less is more.", "Mies van der Rohe", some ["design", "zen"]⟩

/-- A provider record that is new to the seed store and tagged with a name
every object inherits. -/
def buildIt : ProviderQuote :=
  ⟨"Build it.", "Anon", some ["constructor"]⟩

/-- The first seed record as the provider could send it, tagged humor. -/
def seedRetagged : ProviderQuote :=
  ⟨"Be yourself; everyone else is already taken.", "Oscar Wilde", some ["humor"]⟩

/-! ## Account store (lines 20-45 and 263-308) -/

/-- A user record. `favorites` is `none` when a record read from `users.json`
lacks the field. -/
structure User where
  id : Nat
  username : String
  email : String
  password : String
  favorites : Option (List Quote)
  createdAt : Nat
deriving DecidableEq, Repr

/-- The account side of the server: the array `users` and the contents of
`users.json` (`none`: no readable file). -/
structure Accounts where
  users : List User
  usersFile : Option (List User)
deriving DecidableEq, Repr

/-- The `user` object of a registration or login response. -/
structure PublicUser where
  id : Nat
  username : String
  email : String
deriving DecidableEq, Repr

/-- The body of a successful registration or login response. -/
structure AuthBody where
  message : String
  token : String
  user : PublicUser
deriving DecidableEq, Repr

/-- The function `saveUsers`: a write that fails is logged and leaves the file
as it was. -/
def saveUsers (a : Accounts) (writeOk : Bool) : Accounts :=
  if writeOk then { a with usersFile := some a.users } else a

/-- Lines 265-274 of `POST /api/auth/register`, the part before
`await bcrypt.hash`: the rejection the tests produce, `none` when the
request passes them. A field of the body that is absent is `none`. -/
def registerTest (a : Accounts) (username email password : Option String) :
    Option (Reply AuthBody) :=
  if !(truthy username && truthy email && truthy password) then
    some (Reply.error 400 "All fields are required")
  else if a.users.any
      (fun user => decide (some user.email = email) || decide (some user.username = username)) then
    some (Reply.error 400 "User already exists")
  else
    none

/-- Lines 280-303 of `POST /api/auth/register`, the part that runs when
`bcrypt.hash` has resolved, on the store as it is then. `hash` is
`bcrypt.hash`, `sign` is `jwt.sign` on the id and username, `now` is the
clock. -/
def registerCommit (a : Accounts) (username email password : Option String)
    (hash : String → String) (sign : Nat → String → String) (now : Nat) (writeOk : Bool) :
    Accounts × Reply AuthBody :=
  let newUser : User :=
    { id := a.users.length + 1
      username := username.getD ""
      email := email.getD ""
      password := hash (password.getD "")
      favorites := some []
      createdAt := now }
  (saveUsers { a with users := a.users ++ [newUser] } writeOk,
    Reply.ok 201
      { message := "User registered successfully"
        token := sign newUser.id newUser.username
        user := { id := newUser.id, username := newUser.username, email := newUser.email } })

/-- The handler of `POST /api/auth/register` for a request during whose
`await bcrypt.hash` no other request is served: the tests, then the part
after the hash on the same store. -/
def register (a : Accounts) (username email password : Option String)
    (hash : String → String) (sign : Nat → String → String) (now : Nat) (writeOk : Bool) :
    Accounts × Reply AuthBody :=
  match registerTest a username email password with
  | some rejection => (a, rejection)
  | none => registerCommit a username email password hash sign now writeOk

/-- An account store with one registered user. -/
def oneUser : Accounts :=
  { users := [{ id := 1, username := "ann", email := "ann@example.org", password := "digest",
                favorites := some [], createdAt := 0 }]
    usersFile := none }

/-! ## POST /api/auth/login (lines 311-347) -/

/-- The handler of `POST /api/auth/login`. `compare` is `bcrypt.compare` on
the password of the request and the stored digest. -/
def login (a : Accounts) (email password : Option String)
    (compare : String → String → Bool) (sign : Nat → String → String) :
    Accounts × Reply AuthBody :=
  if !(truthy email && truthy password) then
    (a, Reply.error 400 "Email and password are required")
  else
    match a.users.find? (fun user => decide (some user.email = email)) with
    | none => (a, Reply.error 401 "Invalid credentials")
    | some user =>
      if !(compare (password.getD "") user.password) then
        (a, Reply.error 401 "Invalid credentials")
      else
        (a, Reply.ok 200
          { message := "Logged in successfully"
            token := sign user.id user.username
            user := { id := user.id, username := user.username, email := user.email } })

/-! ## Favorites (lines 365-426) -/

/-- The body of a favorites response. `favorites` is `none` when
`user.favorites` is `undefined`. -/
structure FavoritesBody where
  message : String
  favorites : Option (List Quote)
deriving DecidableEq, Repr

/-- The test `q.content === content && q.author === author` on a favorite. -/
def sameFavorite (content author : String) (q : Quote) : Bool :=
  decide (q.content = content) && decide (q.author = author)

/-- An assignment to a field of the object `users.find(user => user.id === id)`
returns: the first record with that id is replaced by its image under `f`. -/
def updateUser (users : List User) (userId : Nat) (f : User → User) : List User :=
  match users with
  | [] => []
  | u :: rest => if u.id = userId then f u :: rest else u :: updateUser rest userId f

/-- The handler of `POST /api/favorites` for the authenticated user `userId`.
`quote` is `none` when the body has no `quote`; a `content` or `author`
that is absent counts as empty. A missing `favorites` is first set to the
empty array (line 379), which the duplicate test then never rejects, so a
rejection as duplicate leaves the record as it was. -/
def addFavorite (a : Accounts) (userId : Nat) (quote : Option Quote) (writeOk : Bool) :
    Accounts × Reply FavoritesBody :=
  match quote with
  | none => (a, Reply.error 400 "Valid quote is required")
  | some quote =>
    if quote.content = "" ∨ quote.author = "" then
      (a, Reply.error 400 "Valid quote is required")
    else
      match a.users.find? (fun user => decide (user.id = userId)) with
      | none => (a, Reply.error 404 "User not found")
      | some user =>
        let favorites := user.favorites.getD []
        if favorites.any (sameFavorite quote.content quote.author) then
          (a, Reply.error 400 "Quote already in favorites")
        else
          (saveUsers
              { a with
                users := updateUser a.users userId
                  (fun u => { u with favorites := some (favorites ++ [quote]) }) }
              writeOk,
            Reply.ok 201
              { message := "Quote added to favorites", favorites := some (favorites ++ [quote]) })

/-- The handler of `DELETE /api/favorites` for the authenticated user
`userId`. Without a `favorites` array nothing is filtered and nothing is
saved. -/
def removeFavorite (a : Accounts) (userId : Nat) (content author : Option String)
    (writeOk : Bool) : Accounts × Reply FavoritesBody :=
  if !(truthy content && truthy author) then
    (a, Reply.error 400 "Content and author are required")
  else
    match a.users.find? (fun user => decide (user.id = userId)) with
    | none => (a, Reply.error 404 "User not found")
    | some user =>
      match user.favorites with
      | none => (a, Reply.ok 200 { message := "Quote removed from favorites", favorites := none })
      | some favorites =>
        let kept := favorites.filter
          (fun q => decide (some q.content ≠ content) || decide (some q.author ≠ author))
        (saveUsers
            { a with
              users := updateUser a.users userId (fun u => { u with favorites := some kept }) }
            writeOk,
          Reply.ok 200 { message := "Quote removed from favorites", favorites := some kept })

/-! ## Sequences of account requests -/

/-- A request that can change the account side. -/
inductive AccountOp where
  | register (username email password : Option String) (now : Nat) (writeOk : Bool)
  | addFavorite (userId : Nat) (quote : Option Quote) (writeOk : Bool)
  | removeFavorite (userId : Nat) (content author : Option String) (writeOk : Bool)
deriving DecidableEq, Repr

/-- The effect of one account request on the store. -/
def applyAccountOp (hash : String → String) (sign : Nat → String → String) (a : Accounts)
    (op : AccountOp) : Accounts :=
  match op with
  | AccountOp.register username email password now writeOk =>
    (register a username email password hash sign now writeOk).1
  | AccountOp.addFavorite userId quote writeOk => (addFavorite a userId quote writeOk).1
  | AccountOp.removeFavorite userId content author writeOk =>
    (removeFavorite a userId content author writeOk).1

/-- The account store after a sequence of requests. -/
def runAccounts (hash : String → String) (sign : Nat → String → String) (a : Accounts)
    (ops : List AccountOp) : Accounts :=
  ops.foldl (applyAccountOp hash sign) a

/-- The account store of a server that found no `users.json`. -/
def emptyAccounts : Accounts :=
  { users := [], usersFile := none }

/-- A registration that has passed its tests and waits for `bcrypt.hash`. -/
structure PendingRegistration where
  username : Option String
  email : Option String
  password : Option String
deriving DecidableEq, Repr

/-- The account side with the registrations that are waiting for their hash. -/
structure AccountSystem where
  accounts : Accounts
  pending : List PendingRegistration
deriving DecidableEq, Repr

/-- What the server does between two `await`s on the account side: a
registration arrives and runs up to `await bcrypt.hash`; the hash of the
waiting registration number `i` resolves and it runs from line 280 on; or a
request is served that no other request overlaps. -/
inductive AccountEvent where
  | registerArrives (username email password : Option String)
  | hashResolves (i : Nat) (now : Nat) (writeOk : Bool)
  | request (op : AccountOp)
deriving DecidableEq, Repr

/-- The effect of one event. -/
def stepAccounts (hash : String → String) (sign : Nat → String → String)
    (sys : AccountSystem) (ev : AccountEvent) : AccountSystem :=
  match ev with
  | AccountEvent.registerArrives username email password =>
    match registerTest sys.accounts username email password with
    | some _ => sys
    | none => { sys with pending := sys.pending ++ [⟨username, email, password⟩] }
  | AccountEvent.hashResolves i now writeOk =>
    match sys.pending.get? i with
    | none => sys
    | some r =>
      { accounts :=
          (registerCommit sys.accounts r.username r.email r.password hash sign now writeOk).1
        pending := sys.pending.eraseIdx i }
  | AccountEvent.request op =>
    { sys with accounts := applyAccountOp hash sign sys.accounts op }

/-- The account side after a sequence of events. -/
def runEvents (hash : String → String) (sign : Nat → String → String) (sys : AccountSystem)
    (evs : List AccountEvent) : AccountSystem :=
  evs.foldl (stepAccounts hash sign) sys

/-- Two registrations with the same body, the second arriving while the
first waits for its hash. -/
def doubleClick : List AccountEvent :=
  [AccountEvent.registerArrives (some "ann") (some "ann@example.org") (some "pw"),
    AccountEvent.registerArrives (some "ann") (some "ann@example.org") (some "pw"),
    AccountEvent.hashResolves 0 7 true,
    AccountEvent.hashResolves 0 8 true]

/-- No two entries of a favorites list have the same content and author. -/
def DupFree (favorites : List Quote) : Prop :=
  favorites.Pairwise (fun q1 q2 => ¬ (q1.content = q2.content ∧ q1.author = q2.author))

/-- The favorites of the record that `users.find(user => user.id === id)`
returns, `none` when there is no such record or it has no `favorites`. -/
def favoritesOf (a : Accounts) (userId : Nat) : Option (List Quote) :=
  (a.users.find? (fun user => decide (user.id = userId))).bind (fun user => user.favorites)

/-- A quote a client sends as a favorite. -/
def carpeDiem : Quote :=
  ⟨"Carpe diem.", "Horace", ["life"], none⟩

/-- A store where ann has one favorite. -/
def annWithFavorite : Accounts :=
  { users := [{ id := 1, username := "ann", email := "ann@example.org", password := "digest",
                favorites := some [carpeDiem], createdAt := 0 }]
    usersFile := none }

/-- The uniqueness property of the account store: the ids are 1, 2, ... in
the order of the array, and no username and no email occurs twice. -/
def UniqueAccounts (a : Accounts) : Prop :=
  a.users.map (fun u => u.id) = List.range' 1 a.users.length ∧
    (a.users.map (fun u => u.username)).Nodup ∧ (a.users.map (fun u => u.email)).Nodup

/-- The objects of `all` are pairwise different and older than the next
object to be made. -/
def FreshRefs (s : Server) : Prop :=
  (s.quoteCache.all.map (fun q => q.ref)).Nodup ∧ ∀ x ∈ s.quoteCache.all, x.ref < s.nextRef

/-- The server at start-up when `quoteCache.json` holds `file` (`none`: there
is no readable file). -/
def startServer (file : Option SavedCache) : Server :=
  { initialServer with cacheFile := file }

/-! ## Lemmas on the map and on allocation -/

theorem getBucket_setBucket_same (m : List (String × List QuoteObj)) (k : String)
    (xs : List QuoteObj) : getBucket (setBucket m k xs) k = some xs := by
  induction m with
  | nil => simp [setBucket, getBucket]
  | cons kv rest ih =>
    obtain ⟨k0, ys⟩ := kv
    by_cases h : k0 = k
    · simp [setBucket, getBucket, h]
    · simp [setBucket, getBucket, h, ih]

theorem getBucket_setBucket_other (m : List (String × List QuoteObj)) (k c : String)
    (xs : List QuoteObj) (h : k ≠ c) : getBucket (setBucket m k xs) c = getBucket m c := by
  induction m with
  | nil => simp [setBucket, getBucket, h]
  | cons kv rest ih =>
    obtain ⟨k0, ys⟩ := kv
    by_cases h0 : k0 = k
    · subst h0
      simp [setBucket, getBucket, h]
    · by_cases h1 : k0 = c
      · subst h1
        simp [setBucket, getBucket, h0]
      · simp [setBucket, getBucket, h0, h1, ih]

theorem val_mem_of_mem_allocate (qs : List Quote) :
    ∀ (n : Nat) (o : QuoteObj), o ∈ allocate n qs → o.val ∈ qs := by
  induction qs with
  | nil => intro n o h; simp [allocate] at h
  | cons q qs ih =>
    intro n o h
    simp only [allocate, List.mem_cons] at h
    rcases h with h | h
    · subst h; simp
    · exact List.mem_cons_of_mem _ (ih (n + 1) o h)

theorem allocate_length (qs : List Quote) : ∀ n : Nat, (allocate n qs).length = qs.length := by
  induction qs with
  | nil => intro n; rfl
  | cons q qs ih => intro n; simp [allocate, ih]

theorem allocate_map_val (qs : List Quote) :
    ∀ n : Nat, (allocate n qs).map (fun o => o.val) = qs := by
  induction qs with
  | nil => intro n; rfl
  | cons q qs ih => intro n; simp [allocate, ih]

/-! ## Idempotence of the provider merges -/

theorem randomMerge_keeps_match (s : Server) (p : ProviderQuote) (q : Quote)
    (h : s.quoteCache.all.any (sameQuote q) = true) :
    (randomMerge s p).quoteCache.all.any (sameQuote q) = true := by
  unfold randomMerge
  by_cases hp : s.quoteCache.all.any (sameQuote (toQuote p)) = true
  · simp only [hp, if_true]; exact h
  · simp only [hp]; simp [List.any_append, h]

theorem randomMerge_has_match (s : Server) (p : ProviderQuote) :
    (randomMerge s p).quoteCache.all.any (sameQuote (toQuote p)) = true := by
  unfold randomMerge
  by_cases hp : s.quoteCache.all.any (sameQuote (toQuote p)) = true
  · simp only [hp, if_true]
  · simp only [hp]; simp [List.any_append, sameQuote]

theorem randomMergeAll_keeps_match (ps : List ProviderQuote) :
    ∀ (s : Server) (q : Quote), s.quoteCache.all.any (sameQuote q) = true →
      (randomMergeAll s ps).quoteCache.all.any (sameQuote q) = true := by
  induction ps with
  | nil => intro s q h; exact h
  | cons p ps ih =>
    intro s q h
    exact ih (randomMerge s p) q (randomMerge_keeps_match s p q h)

theorem randomMergeAll_has_match (ps : List ProviderQuote) :
    ∀ (s : Server) (p : ProviderQuote), p ∈ ps →
      (randomMergeAll s ps).quoteCache.all.any (sameQuote (toQuote p)) = true := by
  induction ps with
  | nil => intro s p h; simp at h
  | cons p0 ps ih =>
    intro s p h
    rcases List.mem_cons.mp h with h | h
    · subst h
      exact randomMergeAll_keeps_match ps (randomMerge s p) _ (randomMerge_has_match s p)
    · exact ih (randomMerge s p0) p h

theorem randomMergeAll_fixed (ps : List ProviderQuote) :
    ∀ s : Server, (∀ p ∈ ps, s.quoteCache.all.any (sameQuote (toQuote p)) = true) →
      (randomMergeAll s ps).quoteCache = s.quoteCache := by
  induction ps with
  | nil => intro s _; rfl
  | cons p ps ih =>
    intro s h
    have hp : s.quoteCache.all.any (sameQuote (toQuote p)) = true := h p (List.mem_cons_self _ _)
    have h1 : (randomMerge s p).quoteCache = s.quoteCache := by
      unfold randomMerge
      simp only [hp, if_true]
    have h2 : (randomMergeAll (randomMerge s p) ps).quoteCache = (randomMerge s p).quoteCache := by
      apply ih
      intro p1 hp1
      rw [h1]
      exact h p1 (List.mem_cons_of_mem _ hp1)
    show (randomMergeAll (randomMerge s p) ps).quoteCache = s.quoteCache
    rw [h2, h1]

theorem categoryMergeStep_keeps_seen (k : String) (c : QuoteCache) (o : QuoteObj) (q : Quote)
    (h : Seen k c q) : Seen k (categoryMergeStep k c o) q := by
  obtain ⟨h1, h2⟩ := h
  constructor
  · unfold categoryMergeStep
    by_cases ha : c.all.any (sameContent o.val) = true
    · simp only [ha, if_true]; exact h1
    · simp only [ha]; simp [List.any_append, h1]
  · unfold categoryMergeStep
    by_cases hb : ((getBucket c.byCategory k).getD []).any (sameContent o.val) = true
    · simp only [hb, if_true]; exact h2
    · simp only [hb, Bool.false_eq_true, if_false]
      rw [getBucket_setBucket_same]
      simp [List.any_append, h2]

theorem categoryMergeStep_seen_self (k : String) (c : QuoteCache) (o : QuoteObj) :
    Seen k (categoryMergeStep k c o) o.val := by
  constructor
  · unfold categoryMergeStep
    by_cases ha : c.all.any (sameContent o.val) = true
    · simp only [ha, if_true]
    · simp only [ha]; simp [List.any_append, sameContent]
  · unfold categoryMergeStep
    by_cases hb : ((getBucket c.byCategory k).getD []).any (sameContent o.val) = true
    · simp only [hb, if_true]
    · simp only [hb, Bool.false_eq_true, if_false]
      rw [getBucket_setBucket_same]
      simp [List.any_append, sameContent]

theorem categoryFold_keeps_seen (k : String) (objs : List QuoteObj) :
    ∀ (c : QuoteCache) (q : Quote), Seen k c q →
      Seen k (objs.foldl (categoryMergeStep k) c) q := by
  induction objs with
  | nil => intro c q h; exact h
  | cons o objs ih =>
    intro c q h
    exact ih _ q (categoryMergeStep_keeps_seen k c o q h)

theorem categoryFold_seen (k : String) (objs : List QuoteObj) :
    ∀ (c : QuoteCache) (o : QuoteObj), o ∈ objs →
      Seen k (objs.foldl (categoryMergeStep k) c) o.val := by
  induction objs with
  | nil => intro c o h; simp at h
  | cons o0 objs ih =>
    intro c o h
    rcases List.mem_cons.mp h with h | h
    · subst h
      exact categoryFold_keeps_seen k objs _ _ (categoryMergeStep_seen_self k c o)
    · exact ih _ o h

theorem categoryMergeStep_fixed (k : String) (c : QuoteCache) (o : QuoteObj)
    (h : Seen k c o.val) : categoryMergeStep k c o = c := by
  obtain ⟨h1, h2⟩ := h
  unfold categoryMergeStep
  simp only [h1, h2, if_true]

theorem categoryFold_fixed (k : String) (objs : List QuoteObj) :
    ∀ c : QuoteCache, (∀ o ∈ objs, Seen k c o.val) →
      objs.foldl (categoryMergeStep k) c = c := by
  induction objs with
  | nil => intro c _; rfl
  | cons o objs ih =>
    intro c h
    have h1 : categoryMergeStep k c o = c :=
      categoryMergeStep_fixed k c o (h o (List.mem_cons_self _ _))
    show objs.foldl (categoryMergeStep k) (categoryMergeStep k c o) = c
    rw [h1]
    exact ih c (fun o1 ho1 => h o1 (List.mem_cons_of_mem _ ho1))

theorem lookup_own (m : List (String × List QuoteObj)) (k : String) (b : List QuoteObj)
    (h : getBucket m k = some b) : lookup m k = Slot.own b := by
  unfold lookup
  rw [h]

theorem lookup_not_own (m : List (String × List QuoteObj)) (k : String)
    (h : getBucket m k = none) :
    lookup m k = match inheritedLength k with
      | some len => Slot.inherited len
      | none => Slot.undefined := by
  unfold lookup
  rw [h]

theorem getBucket_of_lookup_own (m : List (String × List QuoteObj)) (k : String)
    (b : List QuoteObj) (h : lookup m k = Slot.own b) : getBucket m k = some b := by
  unfold lookup at h
  cases hg : getBucket m k with
  | some xs =>
    rw [hg] at h
    simp only [Slot.own.injEq] at h
    rw [h]
  | none =>
    rw [hg] at h
    cases hi : inheritedLength k with
    | none => rw [hi] at h; simp at h
    | some len => rw [hi] at h; simp at h

theorem getBucket_of_lookup_not_own (m : List (String × List QuoteObj)) (k : String)
    (h : ∀ b, lookup m k ≠ Slot.own b) : getBucket m k = none := by
  cases hg : getBucket m k with
  | none => rfl
  | some xs => exact absurd (lookup_own m k xs hg) (h xs)

theorem categoryMerge_nextRef (s : Server) (k : String) (rs : List ProviderQuote) :
    (categoryMerge s k rs).nextRef = s.nextRef + rs.length := by
  unfold categoryMerge
  simp only [allocate_length, List.length_map]
  split
  · split <;> rfl
  · rfl

theorem categoryMerge_cases (s : Server) (k : String) (r : ProviderQuote)
    (rs : List ProviderQuote) :
    ((∃ len, lookup s.quoteCache.byCategory k = Slot.inherited len) ∧
      categoryMergeThrows s k (r :: rs) = true ∧
      (categoryMerge s k (r :: rs)).quoteCache = s.quoteCache) ∨
    ((∀ len, lookup s.quoteCache.byCategory k ≠ Slot.inherited len) ∧
      categoryMergeThrows s k (r :: rs) = false ∧
      ∃ c0 : QuoteCache, c0.all = s.quoteCache.all ∧
        (c0.byCategory = s.quoteCache.byCategory ∨
          (getBucket s.quoteCache.byCategory k = none ∧
            c0.byCategory = setBucket s.quoteCache.byCategory k [])) ∧
        (categoryMerge s k (r :: rs)).quoteCache
          = (allocate s.nextRef ((r :: rs).map toQuote)).foldl (categoryMergeStep k) c0) := by
  have hpos : 0 < (allocate s.nextRef ((r :: rs).map toQuote)).length := by
    rw [allocate_length]; simp
  cases hl : lookup s.quoteCache.byCategory k with
  | inherited len =>
    left
    refine ⟨⟨len, rfl⟩, ?_, ?_⟩
    · simp only [categoryMergeThrows, hl]
    · simp only [categoryMerge, gt_iff_lt, hpos, if_true, hl]
  | undefined =>
    right
    refine ⟨fun len => by simp, ?_, ?_⟩
    · simp only [categoryMergeThrows, hl]
    · refine ⟨{ all := s.quoteCache.all
                byCategory := setBucket s.quoteCache.byCategory k [] }, rfl, Or.inr ⟨?_, rfl⟩, ?_⟩
      · apply getBucket_of_lookup_not_own
        intro b hb
        rw [hl] at hb
        simp at hb
      · simp only [categoryMerge, gt_iff_lt, hpos, if_true, hl]
  | own b =>
    right
    refine ⟨fun len => by simp, ?_, ?_⟩
    · simp only [categoryMergeThrows, hl]
    · refine ⟨s.quoteCache, rfl, Or.inl rfl, ?_⟩
      simp only [categoryMerge, gt_iff_lt, hpos, if_true, hl]

theorem categoryMerge_idem (s : Server) (k : String) (rs : List ProviderQuote) :
    (categoryMerge (categoryMerge s k rs) k rs).quoteCache = (categoryMerge s k rs).quoteCache := by
  cases rs with
  | nil => simp [categoryMerge, allocate]
  | cons r rs =>
    rcases categoryMerge_cases s k r rs with ⟨⟨len, hl⟩, _, hsame⟩ | ⟨_, _, c0, _, _, hfold⟩
    · rcases categoryMerge_cases (categoryMerge s k (r :: rs)) k r rs with
        ⟨_, _, h2⟩ | ⟨hno, _, _⟩
      · exact h2
      · rw [hsame] at hno
        exact absurd hl (hno len)
    · have hseen : ∀ o ∈ allocate (categoryMerge s k (r :: rs)).nextRef ((r :: rs).map toQuote),
          Seen k (categoryMerge s k (r :: rs)).quoteCache o.val := by
        intro o ho
        have hv : o.val ∈ (r :: rs).map toQuote := val_mem_of_mem_allocate _ _ o ho
        have hm : o.val ∈ (allocate s.nextRef ((r :: rs).map toQuote)).map (fun x => x.val) := by
          rw [allocate_map_val]; exact hv
        obtain ⟨o1, ho1, hv1⟩ := List.mem_map.mp hm
        rw [hfold]
        have := categoryFold_seen k _ c0 o1 ho1
        rw [hv1] at this
        exact this
      generalize categoryMerge s k (r :: rs) = s1 at hseen
      have hsome : ∃ b, getBucket s1.quoteCache.byCategory k = some b := by
        have h0 := (hseen ⟨s1.nextRef, toQuote r⟩ (by simp [allocate])).2
        cases hb : getBucket s1.quoteCache.byCategory k with
        | none => rw [hb] at h0; simp at h0
        | some b => exact ⟨b, rfl⟩
      obtain ⟨b, hb⟩ := hsome
      have hpos : 0 < (allocate s1.nextRef ((r :: rs).map toQuote)).length := by
        rw [allocate_length]; simp
      have hrun : (categoryMerge s1 k (r :: rs)).quoteCache
          = (allocate s1.nextRef ((r :: rs).map toQuote)).foldl (categoryMergeStep k)
              s1.quoteCache := by
        simp only [categoryMerge, gt_iff_lt, hpos, if_true, lookup_own _ _ _ hb]
      rw [hrun]
      exact categoryFold_fixed k _ _ hseen

theorem categoryRead_state (s : Server) (k : String) (p : ProviderQuote)
    (ps : List ProviderQuote) :
    (categoryRead s k (some (p :: ps))).1 = categoryMerge s k (p :: ps) := by
  by_cases h : categoryMergeThrows s k (p :: ps) = true
  · simp only [categoryRead, h, if_true]
  · simp only [categoryRead, h, Bool.false_eq_true, if_false]

/-- Claim C1. Merging is idempotent, in every state of the quote store (so in
every state reachable from the seed store): merging a list of provider
records a second time, by the random-quote merge record after record or by
the category merge for a label (whatever the lower-casing function), leaves
`all` and every category bucket as the first merge left them. -/
theorem merge_idempotent (s : Server) (ps : List ProviderQuote) (label : String)
    (toLowerCase : String → String) :
    (randomMergeAll (randomMergeAll s ps) ps).quoteCache = (randomMergeAll s ps).quoteCache ∧
    (categoryMerge (categoryMerge s label ps) label ps).quoteCache
      = (categoryMerge s label ps).quoteCache ∧
    (categoryHandler toLowerCase (categoryHandler toLowerCase s label (some ps)).1 label
        (some ps)).1.quoteCache
      = (categoryHandler toLowerCase s label (some ps)).1.quoteCache := by
  refine ⟨?_, categoryMerge_idem s label ps, ?_⟩
  · exact randomMergeAll_fixed ps _ (fun p hp => randomMergeAll_has_match ps s p hp)
  · cases ps with
    | nil => rfl
    | cons p ps =>
      have h1 : ∀ t : Server, (categoryRead t (toLowerCase label) (some (p :: ps))).1
          = categoryMerge t (toLowerCase label) (p :: ps) :=
        fun t => categoryRead_state t (toLowerCase label) p ps
      show (categoryRead (categoryRead s (toLowerCase label) (some (p :: ps))).1
        (toLowerCase label) (some (p :: ps))).1.quoteCache
        = (categoryRead s (toLowerCase label) (some (p :: ps))).1.quoteCache
      rw [h1, h1]
      exact categoryMerge_idem s (toLowerCase label) (p :: ps)

/-! ## The category index -/

theorem getBucket_pushBucket (m m1 : List (String × List QuoteObj)) (k c : String)
    (x : QuoteObj) (h : pushBucket m k x = some m1) :
    getBucket m1 c
      = if k = c then some ((getBucket m c).getD [] ++ [x]) else getBucket m c := by
  unfold pushBucket at h
  cases hl : lookup m k with
  | inherited len => rw [hl] at h; simp at h
  | own xs =>
    rw [hl] at h
    simp only [Option.some.injEq] at h
    subst h
    have hg := getBucket_of_lookup_own m k xs hl
    by_cases hk : k = c
    · subst hk
      rw [getBucket_setBucket_same, hg]
      simp
    · rw [getBucket_setBucket_other _ _ _ _ hk]
      simp [hk]
  | undefined =>
    rw [hl] at h
    simp only [Option.some.injEq] at h
    subst h
    have hg : getBucket m k = none := by
      apply getBucket_of_lookup_not_own
      intro b hb
      rw [hl] at hb
      simp at hb
    by_cases hk : k = c
    · subst hk
      rw [getBucket_setBucket_same, hg]
      simp
    · rw [getBucket_setBucket_other _ _ _ _ hk]
      simp [hk]

theorem lookup_of_not_inherited (m : List (String × List QuoteObj)) (k : String)
    (h : isInherited k = false) :
    lookup m k = match getBucket m k with
      | some xs => Slot.own xs
      | none => Slot.undefined := by
  have hi : inheritedLength k = none := by
    unfold isInherited at h
    cases hl : inheritedLength k with
    | none => rfl
    | some len => rw [hl] at h; simp at h
  unfold lookup
  cases getBucket m k with
  | some xs => rfl
  | none => simp only [hi]

theorem pushBucket_of_not_inherited (m : List (String × List QuoteObj)) (k : String)
    (x : QuoteObj) (h : isInherited k = false) : ∃ m1, pushBucket m k x = some m1 := by
  unfold pushBucket
  rw [lookup_of_not_inherited m k h]
  cases getBucket m k with
  | some xs => exact ⟨_, rfl⟩
  | none => exact ⟨_, rfl⟩

theorem pushAll_mem (x : QuoteObj) (c : String) (cats : List String) :
    ∀ (m : List (String × List QuoteObj)) (b : List QuoteObj) (y : QuoteObj),
      getBucket (pushAll x m cats).1 c = some b → y ∈ b →
      (y = x ∧ c ∈ cats) ∨ ∃ b0, getBucket m c = some b0 ∧ y ∈ b0 := by
  induction cats with
  | nil =>
    intro m b y h hy
    exact Or.inr ⟨b, h, hy⟩
  | cons k rest ih =>
    intro m b y h hy
    cases hp : pushBucket m k x with
    | none =>
      simp only [pushAll, hp] at h
      exact Or.inr ⟨b, h, hy⟩
    | some m1 =>
      simp only [pushAll, hp] at h
      rcases ih m1 b y h hy with ⟨h1, h2⟩ | ⟨b0, h1, h2⟩
      · exact Or.inl ⟨h1, List.mem_cons_of_mem _ h2⟩
      · rw [getBucket_pushBucket m m1 k c x hp] at h1
        by_cases hk : k = c
        · rw [if_pos hk] at h1
          simp only [Option.some.injEq] at h1
          subst h1
          rcases List.mem_append.mp h2 with h3 | h3
          · right
            cases hg : getBucket m c with
            | none => rw [hg] at h3; simp at h3
            | some b1 => rw [hg] at h3; exact ⟨b1, rfl, h3⟩
          · left
            refine ⟨by simpa using h3, ?_⟩
            rw [← hk]
            exact List.mem_cons_self _ _
        · rw [if_neg hk] at h1
          exact Or.inr ⟨b0, h1, h2⟩

theorem pushAll_safe (x : QuoteObj) (cats : List String) :
    ∀ m : List (String × List QuoteObj), (∀ k ∈ cats, isInherited k = false) →
      (pushAll x m cats).2 = false ∧
      ∀ c : String, getBucket (pushAll x m cats).1 c
        = if c ∈ cats then some ((getBucket m c).getD [] ++ List.replicate (cats.count c) x)
          else getBucket m c := by
  induction cats with
  | nil => intro m _; simp [pushAll]
  | cons k rest ih =>
    intro m hsafe
    obtain ⟨m1, hp⟩ := pushBucket_of_not_inherited m k x (hsafe k (List.mem_cons_self _ _))
    obtain ⟨h1, h2⟩ := ih m1 (fun c hc => hsafe c (List.mem_cons_of_mem _ hc))
    have hrun : pushAll x m (k :: rest) = pushAll x m1 rest := by
      simp only [pushAll, hp]
    rw [hrun]
    refine ⟨h1, ?_⟩
    intro c
    rw [h2 c, getBucket_pushBucket m m1 k c x hp]
    by_cases hk : k = c
    · subst hk
      by_cases hr : k ∈ rest
      · simp [hr, List.replicate_succ]
      · simp [hr, List.count_eq_zero_of_not_mem hr]
    · have hck : ¬ c = k := fun e => hk e.symm
      by_cases hr : c ∈ rest
      · simp [hk, hck, hr, List.count_cons_of_ne hk]
      · simp [hk, hck, hr]

theorem pushAll_throws (x : QuoteObj) (cats : List String) :
    ∀ m : List (String × List QuoteObj), (pushAll x m cats).2 = true →
      ∃ k ∈ cats, isInherited k = true := by
  intro m h
  by_contra hno
  have hsafe : ∀ k ∈ cats, isInherited k = false := by
    intro k hk
    cases hi : isInherited k with
    | false => rfl
    | true => exact absurd ⟨k, hk, hi⟩ hno
  rw [(pushAll_safe x cats m hsafe).1] at h
  simp at h

theorem getBucket_addToCategoryCaches (m : List (String × List QuoteObj)) (x : QuoteObj)
    (c : String) (hsafe : ∀ k ∈ x.val.categories, isInherited k = false) :
    getBucket (addToCategoryCaches m x) c
      = if c ∈ x.val.categories
        then some ((getBucket m c).getD [] ++ List.replicate (x.val.categories.count c) x)
        else getBucket m c :=
  (pushAll_safe x x.val.categories m hsafe).2 c

theorem categoryCachesThrow_of_safe (m : List (String × List QuoteObj)) (x : QuoteObj)
    (hsafe : ∀ k ∈ x.val.categories, isInherited k = false) :
    categoryCachesThrow m x = false :=
  (pushAll_safe x x.val.categories m hsafe).1

theorem mem_of_getBucket (m : List (String × List QuoteObj)) (k : String) (b : List QuoteObj)
    (h : getBucket m k = some b) : (k, b) ∈ m := by
  induction m with
  | nil => simp [getBucket] at h
  | cons kv rest ih =>
    obtain ⟨k0, ys⟩ := kv
    by_cases h0 : k0 = k
    · subst h0
      simp [getBucket] at h
      subst h
      simp
    · simp [getBucket, h0] at h
      exact List.mem_cons_of_mem _ (ih h)

theorem mem_bucket_addToCategoryCaches (m : List (String × List QuoteObj)) (x y : QuoteObj)
    (c : String) (b : List QuoteObj) (h : getBucket (addToCategoryCaches m x) c = some b)
    (hy : y ∈ b) :
    (y = x ∧ c ∈ x.val.categories) ∨ ∃ b0, getBucket m c = some b0 ∧ y ∈ b0 :=
  pushAll_mem x c x.val.categories m b y h hy

theorem categoryIndexed_push (c : QuoteCache) (x : QuoteObj) (h : CategoryIndexed c) :
    CategoryIndexed
      { all := c.all ++ [x], byCategory := addToCategoryCaches c.byCategory x } := by
  intro label bucket hb y hy
  rcases mem_bucket_addToCategoryCaches _ _ _ _ _ hb hy with ⟨h1, h2⟩ | ⟨b0, h1, h2⟩
  · subst h1
    exact ⟨by simp, h2⟩
  · have h3 := h label b0 h1 y h2
    exact ⟨List.mem_append_left _ h3.1, h3.2⟩

theorem contentIndexed_push (c : QuoteCache) (x : QuoteObj) (h : ContentIndexed c) :
    ContentIndexed
      { all := c.all ++ [x], byCategory := addToCategoryCaches c.byCategory x } := by
  intro label bucket hb y hy
  rcases mem_bucket_addToCategoryCaches _ _ _ _ _ hb hy with ⟨h1, _⟩ | ⟨b0, h1, h2⟩
  · subst h1
    simp [List.any_append, sameContent]
  · have h3 := h label b0 h1 y h2
    simp [List.any_append, h3]

theorem contentIndexed_categoryMergeStep (k : String) (c : QuoteCache) (o : QuoteObj)
    (h : ContentIndexed c) : ContentIndexed (categoryMergeStep k c o) := by
  have hself : (categoryMergeStep k c o).all.any (sameContent o.val) = true :=
    (categoryMergeStep_seen_self k c o).1
  have hmono : ∀ q : Quote, c.all.any (sameContent q) = true →
      (categoryMergeStep k c o).all.any (sameContent q) = true := by
    intro q hq
    unfold categoryMergeStep
    by_cases ha : c.all.any (sameContent o.val) = true
    · simp only [ha, if_true]; exact hq
    · simp only [ha]; simp [List.any_append, hq]
  intro label bucket hb y hy
  have hcases : (∃ b0, getBucket c.byCategory label = some b0 ∧ y ∈ b0) ∨ y = o := by
    unfold categoryMergeStep at hb
    by_cases hany : ((getBucket c.byCategory k).getD []).any (sameContent o.val) = true
    · simp only [hany, if_true] at hb
      exact Or.inl ⟨bucket, hb, hy⟩
    · simp only [hany, Bool.false_eq_true, if_false] at hb
      by_cases hk : k = label
      · subst hk
        rw [getBucket_setBucket_same] at hb
        simp only [Option.some.injEq] at hb
        subst hb
        rcases List.mem_append.mp hy with h1 | h1
        · left
          cases hg : getBucket c.byCategory k with
          | none => rw [hg] at h1; simp at h1
          | some b0 => rw [hg] at h1; exact ⟨b0, rfl, h1⟩
        · right
          simpa using h1
      · rw [getBucket_setBucket_other _ _ _ _ hk] at hb
        exact Or.inl ⟨bucket, hb, hy⟩
  rcases hcases with ⟨b0, h1, h2⟩ | h1
  · exact hmono _ (h label b0 h1 y h2)
  · subst h1
    exact hself

theorem contentIndexed_categoryFold (k : String) (objs : List QuoteObj) :
    ∀ c : QuoteCache, ContentIndexed c → ContentIndexed (objs.foldl (categoryMergeStep k) c) := by
  induction objs with
  | nil => intro c h; exact h
  | cons o objs ih =>
    intro c h
    exact ih _ (contentIndexed_categoryMergeStep k c o h)

theorem contentIndexed_categoryMerge (s : Server) (k : String) (rs : List ProviderQuote)
    (h : ContentIndexed s.quoteCache) : ContentIndexed (categoryMerge s k rs).quoteCache := by
  cases rs with
  | nil =>
    have hsame : (categoryMerge s k []).quoteCache = s.quoteCache := by
      simp [categoryMerge, allocate]
    rw [hsame]
    exact h
  | cons r rs =>
    rcases categoryMerge_cases s k r rs with ⟨_, _, hsame⟩ | ⟨_, _, c0, hall, hby, hfold⟩
    · rw [hsame]
      exact h
    · rw [hfold]
      apply contentIndexed_categoryFold
      intro label bucket hb y hy
      rw [hall]
      rcases hby with hby | ⟨_, hby⟩
      · rw [hby] at hb
        exact h label bucket hb y hy
      · rw [hby] at hb
        by_cases hk : k = label
        · subst hk
          rw [getBucket_setBucket_same] at hb
          simp only [Option.some.injEq] at hb
          subst hb
          simp at hy
        · rw [getBucket_setBucket_other _ _ _ _ hk] at hb
          exact h label bucket hb y hy

theorem saveQuoteCache_quoteCache (s : Server) (writeOk : Bool) :
    (saveQuoteCache s writeOk).quoteCache = s.quoteCache := by
  unfold saveQuoteCache
  cases writeOk <;> simp

theorem saveQuoteCache_nextRef (s : Server) (writeOk : Bool) :
    (saveQuoteCache s writeOk).nextRef = s.nextRef := by
  unfold saveQuoteCache
  cases writeOk <;> simp

theorem randomQuoteHandler_state (s : Server) (p : ProviderQuote) (r : ℚ) :
    (randomQuoteHandler s (some p) r).1 = randomMerge s p := by
  by_cases h : randomMergeThrows s p = true
  · simp only [randomQuoteHandler, h, if_true]
  · simp only [randomQuoteHandler, h, Bool.false_eq_true, if_false]

theorem addQuoteHandler_quoteCache (s : Server) (content author : Option String)
    (cats : Option (List String)) (username : String) (writeOk : Bool) :
    (addQuoteHandler s content author cats username writeOk).1.quoteCache
      = if (truthy content && truthy author) = true then
          { all := s.quoteCache.all ++
              [⟨s.nextRef, ⟨content.getD "", author.getD "", cats.getD [], some username⟩⟩]
            byCategory := addToCategoryCaches s.quoteCache.byCategory
              ⟨s.nextRef, ⟨content.getD "", author.getD "", cats.getD [], some username⟩⟩ }
        else s.quoteCache := by
  unfold addQuoteHandler
  by_cases hv : (truthy content && truthy author) = true
  · by_cases ht : categoryCachesThrow s.quoteCache.byCategory
        ⟨s.nextRef, ⟨content.getD "", author.getD "", cats.getD [], some username⟩⟩ = true
    · simp only [hv, ht, if_true]
    · simp only [hv, ht, if_true, Bool.false_eq_true, if_false, saveQuoteCache_quoteCache]
  · simp only [hv, Bool.false_eq_true, if_false]

theorem addQuoteHandler_nextRef (s : Server) (content author : Option String)
    (cats : Option (List String)) (username : String) (writeOk : Bool) :
    (addQuoteHandler s content author cats username writeOk).1.nextRef
      = if (truthy content && truthy author) = true then s.nextRef + 1 else s.nextRef := by
  unfold addQuoteHandler
  by_cases hv : (truthy content && truthy author) = true
  · by_cases ht : categoryCachesThrow s.quoteCache.byCategory
        ⟨s.nextRef, ⟨content.getD "", author.getD "", cats.getD [], some username⟩⟩ = true
    · simp only [hv, ht, if_true]
    · simp only [hv, ht, if_true, Bool.false_eq_true, if_false, saveQuoteCache_nextRef]
  · simp only [hv, Bool.false_eq_true, if_false]

theorem contentIndexed_applyOp (s : Server) (op : Op) (hop : op.isMergeOrSubmit = true)
    (h : ContentIndexed s.quoteCache) : ContentIndexed (applyOp s op).quoteCache := by
  cases op with
  | random p =>
    show ContentIndexed (randomQuoteHandler s (some p) 0).1.quoteCache
    rw [randomQuoteHandler_state]
    unfold randomMerge
    by_cases hp : s.quoteCache.all.any (sameQuote (toQuote p)) = true
    · simp only [hp, if_true]; exact h
    · simp only [hp, Bool.false_eq_true, if_false]
      exact contentIndexed_push s.quoteCache _ h
  | category label results =>
    cases results with
    | nil => exact h
    | cons r rs =>
      show ContentIndexed (categoryRead s label (some (r :: rs))).1.quoteCache
      rw [categoryRead_state]
      exact contentIndexed_categoryMerge s _ (r :: rs) h
  | addQuote content author cats username writeOk =>
    show ContentIndexed (addQuoteHandler s content author cats username writeOk).1.quoteCache
    rw [addQuoteHandler_quoteCache]
    by_cases hv : (truthy content && truthy author) = true
    · rw [if_pos hv]
      exact contentIndexed_push s.quoteCache _ h
    · rw [if_neg hv]
      exact h
  | save writeOk => simp [Op.isMergeOrSubmit] at hop
  | load => simp [Op.isMergeOrSubmit] at hop

theorem categoryIndexed_applyOp (s : Server) (op : Op) (hop : op.isRandomOrSubmit = true)
    (h : CategoryIndexed s.quoteCache) : CategoryIndexed (applyOp s op).quoteCache := by
  cases op with
  | random p =>
    show CategoryIndexed (randomQuoteHandler s (some p) 0).1.quoteCache
    rw [randomQuoteHandler_state]
    unfold randomMerge
    by_cases hp : s.quoteCache.all.any (sameQuote (toQuote p)) = true
    · simp only [hp, if_true]; exact h
    · simp only [hp, Bool.false_eq_true, if_false]
      exact categoryIndexed_push s.quoteCache _ h
  | category label results => simp [Op.isRandomOrSubmit] at hop
  | addQuote content author cats username writeOk =>
    show CategoryIndexed (addQuoteHandler s content author cats username writeOk).1.quoteCache
    rw [addQuoteHandler_quoteCache]
    by_cases hv : (truthy content && truthy author) = true
    · rw [if_pos hv]
      exact categoryIndexed_push s.quoteCache _ h
    · rw [if_neg hv]
      exact h
  | save writeOk => simp [Op.isRandomOrSubmit] at hop
  | load => simp [Op.isRandomOrSubmit] at hop

theorem run_preserves (P : Server → Prop) (allowed : Op → Bool)
    (hstep : ∀ s op, allowed op = true → P s → P (applyOp s op)) (ops : List Op) :
    ∀ s : Server, (∀ op ∈ ops, allowed op = true) → P s → P (run s ops) := by
  induction ops with
  | nil => intro s _ h; exact h
  | cons op ops ih =>
    intro s hall h
    exact ih (applyOp s op) (fun o ho => hall o (List.mem_cons_of_mem _ ho))
      (hstep s op (hall op (List.mem_cons_self _ _)) h)

theorem categoryIndexed_initial : CategoryIndexed initialServer.quoteCache := by
  have hall : ∀ kv ∈ initialServer.quoteCache.byCategory, ∀ x ∈ kv.2,
      x ∈ initialServer.quoteCache.all ∧ kv.1 ∈ x.val.categories := by decide
  intro label bucket hb x hx
  exact hall (label, bucket) (mem_of_getBucket _ _ _ hb) x hx

theorem contentIndexed_initial : ContentIndexed initialServer.quoteCache := by
  intro label bucket hb x hx
  have h := (categoryIndexed_initial label bucket hb x hx).1
  exact List.any_eq_true.mpr ⟨x, h, by simp [sameContent]⟩

/-- Claim C2, as stated, fails. After one category merge on the seed store
the bucket of humor holds a record that no element of `all` matches on
content and author, and a second record that does not carry the label. -/
theorem category_index_counterexample :
    Reachable (run initialServer indexBreakingOps) ∧
    ¬ CategoryIndexed (run initialServer indexBreakingOps).quoteCache ∧
    ∃ bucket x y,
      getBucket (run initialServer indexBreakingOps).quoteCache.byCategory "humor" = some bucket ∧
      x ∈ bucket ∧ "humor" ∈ x.val.categories ∧
      (run initialServer indexBreakingOps).quoteCache.all.any (sameQuote x.val) = false ∧
      y ∈ bucket ∧ y ∈ (run initialServer indexBreakingOps).quoteCache.all ∧
      "humor" ∉ y.val.categories := by
  have hb : getBucket (run initialServer indexBreakingOps).quoteCache.byCategory "humor"
      = some [⟨8, ⟨"If you tell the truth, you don't have to remember anything.", "Mark Twain",
            ["wisdom", "humor"], none⟩⟩,
          ⟨15, ⟨"Be yourself; everyone else is already taken.", "Somebody Else", ["humor"], none⟩⟩,
          ⟨16, ⟨"A day without laughter is a day wasted.", "Charlie Chaplin", ["Humor"],
            none⟩⟩] := by decide
  refine ⟨⟨indexBreakingOps, by decide, rfl⟩, ?_, ?_⟩
  · intro h
    have h1 := (h "humor" _ hb
      ⟨16, ⟨"A day without laughter is a day wasted.", "Charlie Chaplin", ["Humor"], none⟩⟩
      (by simp)).2
    revert h1
    decide
  · exact ⟨_, ⟨15, ⟨"Be yourself; everyone else is already taken.", "Somebody Else", ["humor"],
        none⟩⟩,
      ⟨16, ⟨"A day without laughter is a day wasted.", "Charlie Chaplin", ["Humor"], none⟩⟩,
      hb, by simp, by decide, by decide, by simp, by decide, by decide⟩

/-- Claim C2, amended. In every state reached from the seed store by
random-quote merges, category merges and user submissions, every record of
every bucket has its content in `all`; when no category merge took part,
every record of every bucket is an element of `all` and carries the label
of its bucket. -/
theorem category_index_amended (ops : List Op)
    (h : ∀ op ∈ ops, op.isMergeOrSubmit = true) :
    ContentIndexed (run initialServer ops).quoteCache ∧
    ((∀ op ∈ ops, op.isRandomOrSubmit = true) →
      CategoryIndexed (run initialServer ops).quoteCache) := by
  constructor
  · exact run_preserves (fun s => ContentIndexed s.quoteCache) Op.isMergeOrSubmit
      contentIndexed_applyOp ops initialServer h contentIndexed_initial
  · intro h2
    exact run_preserves (fun s => CategoryIndexed s.quoteCache) Op.isRandomOrSubmit
      categoryIndexed_applyOp ops initialServer h2 categoryIndexed_initial

/-- The amended claim C2 on a run with a user submission and a random-quote
merge. -/
theorem category_index_amended_witness :
    (∀ op ∈ [Op.addQuote (some "Stay hungry.") (some "Anon") (some ["zen"]) "ann" true,
        Op.random ⟨"Less is more.", "Mies", some ["design", "zen"]⟩],
      op.isMergeOrSubmit = true) ∧
    ContentIndexed (run initialServer
      [Op.addQuote (some "Stay hungry.") (some "Anon") (some ["zen"]) "ann" true,
        Op.random ⟨"Less is more.", "Mies", some ["design", "zen"]⟩]).quoteCache ∧
    ((∀ op ∈ [Op.addQuote (some "Stay hungry.") (some "Anon") (some ["zen"]) "ann" true,
        Op.random ⟨"Less is more.", "Mies", some ["design", "zen"]⟩],
      op.isRandomOrSubmit = true) →
      CategoryIndexed (run initialServer
        [Op.addQuote (some "Stay hungry.") (some "Anon") (some ["zen"]) "ann" true,
          Op.random ⟨"Less is more.", "Mies", some ["design", "zen"]⟩]).quoteCache) :=
  ⟨by decide, category_index_amended _ (by decide)⟩

/-! ## Snapshot and restore -/

theorem setOf_fold_of_nodup {α β : Type} [DecidableEq β] (key : α → β) (xs : List α) :
    ∀ acc : List α, ((acc ++ xs).map key).Nodup →
      xs.foldl (fun acc x => if acc.any (fun y => decide (key y = key x)) then acc
        else acc ++ [x]) acc = acc ++ xs := by
  induction xs with
  | nil => intro acc _; simp
  | cons x xs ih =>
    intro acc h
    have hx : acc.any (fun y => decide (key y = key x)) = false := by
      rw [List.any_eq_false]
      intro y hy hk
      have hk1 : key y = key x := by simpa using hk
      rw [List.map_append, List.map_cons, List.nodup_append] at h
      exact h.2.2 (List.mem_map_of_mem key hy) (by rw [hk1]; exact List.mem_cons_self _ _)
    rw [List.foldl_cons, hx]
    simp only [Bool.false_eq_true, if_false]
    rw [ih (acc ++ [x]) (by simpa using h)]
    simp

theorem setOf_of_nodup {α β : Type} [DecidableEq β] (key : α → β) (xs : List α)
    (h : (xs.map key).Nodup) : setOf key xs = xs := by
  unfold setOf
  rw [setOf_fold_of_nodup key xs [] (by simpa using h)]
  simp

theorem allocate_map_ref (qs : List Quote) :
    ∀ n : Nat, (allocate n qs).map (fun o => o.ref) = List.range' n qs.length := by
  induction qs with
  | nil => intro n; rfl
  | cons q qs ih => intro n; simp [allocate, ih, List.range'_succ]

theorem loadQuoteCache_all (s : Server) (loaded : SavedCache) (h : s.cacheFile = some loaded) :
    (loadQuoteCache s).quoteCache.all
      = setOf (fun q => q.ref) (s.quoteCache.all ++ allocate s.nextRef loaded.all) := by
  unfold loadQuoteCache
  rw [h]

theorem snapshotRestore_all (s : Server) :
    (snapshotRestore s).quoteCache.all.map (fun q => q.val)
      = fallbackQuotes ++ s.quoteCache.all.map (fun q => q.val) := by
  have hnodup : ((allocate 0 fallbackQuotes ++ allocate fallbackQuotes.length
      (s.quoteCache.all.map (fun q => q.val))).map (fun o => o.ref)).Nodup := by
    rw [List.map_append, allocate_map_ref, allocate_map_ref]
    have happ := List.range'_append_1 0 fallbackQuotes.length
      (s.quoteCache.all.map (fun q => q.val)).length
    rw [Nat.zero_add] at happ
    rw [happ]
    exact List.nodup_range' _ _
  have hall : (snapshotRestore s).quoteCache.all
      = setOf (fun q => q.ref) (allocate 0 fallbackQuotes ++ allocate fallbackQuotes.length
          (s.quoteCache.all.map (fun q => q.val))) :=
    loadQuoteCache_all _ (serialise s.quoteCache) rfl
  rw [hall, setOf_of_nodup _ _ hnodup, List.map_append, allocate_map_val, allocate_map_val]

/-- Claim C3 at its failing inputs. Restoring the snapshot of the seed store
into a fresh instance gives a store that is not structurally equal to it:
`all` holds every seed record twice and each seed bucket holds its records
twice, as different objects. Restoring the snapshot of a store with a bucket
for zen gives a store without that bucket. In every state the restored
`all` is the seed list followed by the records of the snapshot, so it is
never the `all` of the snapshot. -/
theorem snapshot_restore_not_identity :
    serialise (snapshotRestore initialServer).quoteCache ≠ serialise initialServer.quoteCache ∧
    (snapshotRestore initialServer).quoteCache.all.map (fun q => q.val)
      = fallbackQuotes ++ fallbackQuotes ∧
    (getBucket (snapshotRestore initialServer).quoteCache.byCategory "love").map
        (fun b => b.map (fun q => q.ref)) = some [11, 58] ∧
    (getBucket zenServer.quoteCache.byCategory "zen").map (fun b => b.map (fun q => q.val))
      = some [⟨"Stay hungry.", "Anon", ["zen"], some "ann"⟩] ∧
    getBucket (snapshotRestore zenServer).quoteCache.byCategory "zen" = none ∧
    ∀ s : Server,
      (snapshotRestore s).quoteCache.all.map (fun q => q.val)
        = fallbackQuotes ++ s.quoteCache.all.map (fun q => q.val) ∧
      (serialise (snapshotRestore s).quoteCache).all ≠ (serialise s.quoteCache).all := by
  refine ⟨by decide, by decide, by decide, by decide, by decide, ?_⟩
  intro s
  refine ⟨snapshotRestore_all s, ?_⟩
  intro h
  have hlen := congrArg List.length h
  have hall := congrArg List.length (snapshotRestore_all s)
  simp only [serialise, List.length_map, List.length_append] at hlen hall
  have h15 : fallbackQuotes.length = 15 := rfl
  omega

/-! ## The category read -/

theorem seedAnswer_ne_nil (category : String) :
    (if (fallbackQuotes.filter (fun q => decide (category ∈ q.categories))).length > 0
      then fallbackQuotes.filter (fun q => decide (category ∈ q.categories))
      else fallbackQuotes.take 5) ≠ [] := by
  have hseed : fallbackQuotes.take 5 ≠ [] := by decide
  by_cases hf : (fallbackQuotes.filter (fun q => decide (category ∈ q.categories))).length > 0
  · rw [if_pos hf]
    exact List.ne_nil_of_length_pos hf
  · rw [if_neg hf]
    exact hseed

theorem cachedCategory_undefined (c : QuoteCache) (category : String)
    (h : lookup c.byCategory category = Slot.undefined) :
    cachedCategory c category
      = some (if (fallbackQuotes.filter (fun q => decide (category ∈ q.categories))).length > 0
          then fallbackQuotes.filter (fun q => decide (category ∈ q.categories))
          else fallbackQuotes.take 5) := by
  unfold cachedCategory
  rw [h]

theorem cachedCategory_inherited (c : QuoteCache) (category : String) (n : Nat)
    (h : lookup c.byCategory category = Slot.inherited (some (n + 1))) :
    cachedCategory c category = none := by
  unfold cachedCategory
  rw [h]

theorem cachedCategory_some (c : QuoteCache) (category : String)
    (h : ∀ n : Nat, lookup c.byCategory category ≠ Slot.inherited (some (n + 1))) :
    ∃ quotes : List Quote, cachedCategory c category = some quotes ∧ quotes ≠ [] := by
  unfold cachedCategory
  cases hl : lookup c.byCategory category with
  | undefined => exact ⟨_, rfl, seedAnswer_ne_nil category⟩
  | own b =>
    cases b with
    | nil => exact ⟨_, rfl, seedAnswer_ne_nil category⟩
    | cons q qs => exact ⟨_, rfl, by simp⟩
  | inherited len =>
    cases len with
    | none => exact ⟨_, rfl, seedAnswer_ne_nil category⟩
    | some n =>
      cases n with
      | zero => exact ⟨_, rfl, seedAnswer_ne_nil category⟩
      | succ n => exact absurd hl (h n)

theorem categoryRead_ok (s : Server) (category : String)
    (provider : Option (List ProviderQuote))
    (h : ∀ n : Nat, lookup s.quoteCache.byCategory category ≠ Slot.inherited (some (n + 1))) :
    ∃ quotes : List Quote,
      (categoryRead s category provider).2 = Reply.ok 200 (some quotes) ∧ quotes ≠ [] := by
  obtain ⟨quotes, hq, hne⟩ := cachedCategory_some s.quoteCache category h
  cases provider with
  | none => exact ⟨quotes, by simp only [categoryRead, hq], hne⟩
  | some results =>
    cases results with
    | nil => exact ⟨quotes, by simp only [categoryRead, hq], hne⟩
    | cons p ps =>
      rcases categoryMerge_cases s category p ps with ⟨_, hthrow, hsame⟩ | ⟨_, hthrow, _⟩
      · refine ⟨quotes, ?_, hne⟩
        simp only [categoryRead, hthrow, if_true, hsame, hq]
      · refine ⟨(p :: ps).map toQuote, ?_, by simp⟩
        simp only [categoryRead, hthrow, Bool.false_eq_true, if_false]

theorem categoryRead_inherited (s : Server) (category : String)
    (provider : Option (List ProviderQuote)) (n : Nat)
    (h : lookup s.quoteCache.byCategory category = Slot.inherited (some (n + 1))) :
    (categoryRead s category provider).2 = Reply.ok 200 none := by
  have hq := cachedCategory_inherited s.quoteCache category n h
  cases provider with
  | none => simp only [categoryRead, hq]
  | some results =>
    cases results with
    | nil => simp only [categoryRead, hq]
    | cons p ps =>
      rcases categoryMerge_cases s category p ps with ⟨_, hthrow, hsame⟩ | ⟨hno, _, _⟩
      · simp only [categoryRead, hthrow, if_true, hsame, hq]
      · exact absurd h (hno _)

/-- Claim C4 at its failing input. On the seed store `byCategory` has no own
property constructor but inherits one, a function of one parameter; the
category read for the label constructor, with the provider unavailable or
answering with any list of results, gives that function to `res.json` and
answers 200 with no body. For every state, lower-casing function, label and
provider outcome where the lower-cased label does not name an inherited
value with a positive `length`, the handler answers 200 with a non-empty
list of quote records. -/
theorem category_read_constructor_empty_body :
    getBucket initialServer.quoteCache.byCategory "constructor" = none ∧
    lookup initialServer.quoteCache.byCategory "constructor" = Slot.inherited (some 1) ∧
    categoryHandler asciiLower initialServer "constructor" none
      = (initialServer, Reply.ok 200 none) ∧
    (∀ (toLowerCase : String → String) (provider : Option (List ProviderQuote)),
      toLowerCase "constructor" = "constructor" →
      (categoryHandler toLowerCase initialServer "constructor" provider).2
        = Reply.ok 200 none) ∧
    (∀ (toLowerCase : String → String) (s : Server) (label : String)
        (provider : Option (List ProviderQuote)),
      (∀ n : Nat, lookup s.quoteCache.byCategory (toLowerCase label)
        ≠ Slot.inherited (some (n + 1))) →
      ∃ quotes : List Quote,
        (categoryHandler toLowerCase s label provider).2 = Reply.ok 200 (some quotes) ∧
        quotes ≠ []) := by
  have hl : lookup initialServer.quoteCache.byCategory "constructor"
      = Slot.inherited (some 1) := by decide
  refine ⟨by decide, hl, by decide, ?_, ?_⟩
  · intro toLowerCase provider hfix
    unfold categoryHandler
    rw [hfix]
    exact categoryRead_inherited initialServer "constructor" provider 0 hl
  · intro toLowerCase s label provider h
    exact categoryRead_ok s (toLowerCase label) provider h

/-- Claim C5, as stated, fails. On the seed store the label nonexistent names
no bucket, `byCategory[label]` is `undefined`, and with the provider
unavailable the category read answers with the first five seed records, not
with the empty sequence. -/
theorem unknown_label_counterexample :
    asciiLower "nonexistent" = "nonexistent" ∧
    getBucket initialServer.quoteCache.byCategory "nonexistent" = none ∧
    lookup initialServer.quoteCache.byCategory "nonexistent" = Slot.undefined ∧
    (categoryHandler asciiLower initialServer "nonexistent" none).2
      = Reply.ok 200 (some (fallbackQuotes.take 5)) ∧
    (categoryHandler asciiLower initialServer "nonexistent" none).2
      ≠ Reply.ok 200 (some []) := by
  refine ⟨by decide, by decide, by decide, by decide, by decide⟩

/-- Claim C5, amended. For every state, every lower-casing function and every
label for which `byCategory[lowercase(label)]` is `undefined` (no bucket of
that name and no inherited property), with the provider unavailable, the
category read answers with the seed records carrying the lower-cased label
or, when there is none, with the first five seed records; the answer is not
empty, not an error, and the state is unchanged. -/
theorem unknown_label_seed_answer (toLowerCase : String → String) (s : Server)
    (label : String)
    (h : lookup s.quoteCache.byCategory (toLowerCase label) = Slot.undefined) :
    categoryHandler toLowerCase s label none
      = (s, Reply.ok 200
          (some (if (fallbackQuotes.filter
                (fun q => decide (toLowerCase label ∈ q.categories))).length > 0
            then fallbackQuotes.filter (fun q => decide (toLowerCase label ∈ q.categories))
            else fallbackQuotes.take 5))) ∧
    (if (fallbackQuotes.filter (fun q => decide (toLowerCase label ∈ q.categories))).length > 0
      then fallbackQuotes.filter (fun q => decide (toLowerCase label ∈ q.categories))
      else fallbackQuotes.take 5) ≠ [] := by
  constructor
  · simp only [categoryHandler, categoryRead, cachedCategory_undefined _ _ h]
  · exact seedAnswer_ne_nil (toLowerCase label)

/-- The amended claim C5 on the seed store and the label nonexistent. -/
theorem unknown_label_seed_answer_witness :
    lookup initialServer.quoteCache.byCategory (asciiLower "nonexistent") = Slot.undefined ∧
    categoryHandler asciiLower initialServer "nonexistent" none
      = (initialServer, Reply.ok 200
          (some (if (fallbackQuotes.filter
                (fun q => decide (asciiLower "nonexistent" ∈ q.categories))).length > 0
            then fallbackQuotes.filter
              (fun q => decide (asciiLower "nonexistent" ∈ q.categories))
            else fallbackQuotes.take 5))) :=
  ⟨by decide, (unknown_label_seed_answer asciiLower initialServer "nonexistent" (by decide)).1⟩

/-! ## Deduplication -/

/-- Claim C6 at its failing input. The random-quote merge appends a record to
`all` exactly when no element matches it on content and author. The category
merge does not: on the seed store, a record with the content of the first
seed record and another author matches no element on both fields, the
random-quote merge appends it, and the category merge leaves `all` as it
was. -/
theorem category_merge_dedups_by_content_only :
    (∀ (s : Server) (p : ProviderQuote),
      (randomMerge s p).quoteCache.all
        = if s.quoteCache.all.any (sameQuote (toQuote p)) then s.quoteCache.all
          else s.quoteCache.all ++ [⟨s.nextRef, toQuote p⟩]) ∧
    initialServer.quoteCache.all.any (sameQuote (toQuote sameContentOtherAuthor)) = false ∧
    (randomMerge initialServer sameContentOtherAuthor).quoteCache.all
      = initialServer.quoteCache.all ++ [⟨15, toQuote sameContentOtherAuthor⟩] ∧
    (categoryMerge initialServer "wisdom" [sameContentOtherAuthor]).quoteCache.all
      = initialServer.quoteCache.all := by
  refine ⟨?_, by decide, by decide, by decide⟩
  intro s p
  unfold randomMerge
  by_cases hp : s.quoteCache.all.any (sameQuote (toQuote p)) = true
  · simp only [hp, if_true]
  · simp only [hp, Bool.false_eq_true, if_false]

/-- Claim C7, as stated, fails. On the seed store the bucket of humor holds
no record with the content and author of the first seed record; the
random-quote merge of that record tagged humor changes nothing, so the
bucket of humor still does not contain it. -/
theorem bucket_merge_counterexample :
    (toQuote seedRetagged).categories = ["humor"] ∧
    ((getBucket initialServer.quoteCache.byCategory "humor").getD []).any
      (sameQuote (toQuote seedRetagged)) = false ∧
    (randomMerge initialServer seedRetagged).quoteCache = initialServer.quoteCache ∧
    ((getBucket (randomMerge initialServer seedRetagged).quoteCache.byCategory "humor").getD
      []).any (sameQuote (toQuote seedRetagged)) = false := by
  refine ⟨by decide, by decide, by decide, by decide⟩

/-- Claim C7, amended. For a record none of whose categories is a name
inherited from `Object.prototype`, the random-quote merge is gated by `all`:
when an element of `all` matches the record on content and author the cache
is unchanged; otherwise the new object is appended to the bucket of each
label, once for every occurrence of the label among the categories of the
record (a missing bucket is created), and the other buckets are
unchanged. -/
theorem bucket_merge_gated_by_all (s : Server) (p : ProviderQuote) (label : String)
    (hsafe : ∀ k ∈ (toQuote p).categories, isInherited k = false) :
    if s.quoteCache.all.any (sameQuote (toQuote p)) then
      (randomMerge s p).quoteCache = s.quoteCache
    else
      getBucket (randomMerge s p).quoteCache.byCategory label
        = if label ∈ (toQuote p).categories then
            some ((getBucket s.quoteCache.byCategory label).getD [] ++
              List.replicate ((toQuote p).categories.count label) ⟨s.nextRef, toQuote p⟩)
          else getBucket s.quoteCache.byCategory label := by
  by_cases hp : s.quoteCache.all.any (sameQuote (toQuote p)) = true
  · rw [if_pos hp]
    unfold randomMerge
    simp only [hp, if_true]
  · rw [if_neg hp]
    unfold randomMerge
    simp only [hp, Bool.false_eq_true, if_false]
    exact getBucket_addToCategoryCaches s.quoteCache.byCategory ⟨s.nextRef, toQuote p⟩ label
      hsafe

/-- The amended claim C7 on the seed store: a new record tagged design and zen
is the only element of the new bucket zen, and a second merge of the same
record leaves the cache as it is. -/
theorem bucket_merge_gated_by_all_witness :
    (∀ k ∈ (toQuote lessIsMore).categories, isInherited k = false) ∧
    getBucket (randomMerge initialServer lessIsMore).quoteCache.byCategory "zen"
      = some [⟨15, toQuote lessIsMore⟩] ∧
    (randomMerge (randomMerge initialServer lessIsMore) lessIsMore).quoteCache
      = (randomMerge initialServer lessIsMore).quoteCache := by
  have h1 := bucket_merge_gated_by_all initialServer lessIsMore "zen" (by decide)
  have h2 := bucket_merge_gated_by_all (randomMerge initialServer lessIsMore) lessIsMore "zen"
    (by decide)
  have hnew : initialServer.quoteCache.all.any (sameQuote (toQuote lessIsMore)) = false := by
    decide
  have hold : (randomMerge initialServer lessIsMore).quoteCache.all.any
      (sameQuote (toQuote lessIsMore)) = true := randomMerge_has_match initialServer lessIsMore
  rw [hnew] at h1
  rw [hold] at h2
  refine ⟨by decide, ?_, ?_⟩
  · simp only [Bool.false_eq_true, if_false] at h1
    rw [h1]
    decide
  · simpa using h2

/-! ## The category list -/

/-- Claim C8, as stated, fails. After a user has submitted a quote in the
category zen the store has a bucket for zen, and with the provider
unavailable the category list is the list of seed labels, which does not
contain zen. -/
theorem list_categories_counterexample :
    Reachable zenServer ∧
    getBucket zenServer.quoteCache.byCategory "zen" ≠ none ∧
    categoriesHandler zenServer none = Reply.ok 200 categories ∧
    "zen" ∉ categories := by
  refine ⟨⟨[Op.addQuote (some "Stay hungry.") (some "Anon") (some ["zen"]) "ann" true],
    by decide, rfl⟩, by decide, rfl, by decide⟩

/-- Claim C8, amended. With the provider unavailable the category list is, in
every state, the list of the nine seed labels: a label introduced by a merge
or a user submission is not listed. -/
theorem list_categories_seed_only (s : Server) :
    categoriesHandler s none = Reply.ok 200 categories ∧
    categories = ["wisdom", "inspiration", "success", "motivation", "life", "creativity",
      "humor", "love", "happiness"] ∧
    ∀ label, label ∈ categories ↔ ∃ q ∈ fallbackQuotes, label ∈ q.categories := by
  refine ⟨rfl, by decide, ?_⟩
  intro label
  constructor
  · intro h
    have hall : ∀ l ∈ categories, ∃ q ∈ fallbackQuotes, l ∈ q.categories := by decide
    exact hall label h
  · rintro ⟨q, hq, hl⟩
    have hall : ∀ q ∈ fallbackQuotes, ∀ l ∈ q.categories, l ∈ categories := by decide
    exact hall q hq label hl

/-! ## The random read -/

theorem randomIndex_lt (r : ℚ) (n : Nat) (h0 : 0 ≤ r) (h1 : r < 1) (hn : 0 < n) :
    randomIndex r n < n := by
  unfold randomIndex
  have hn0 : (0 : ℚ) < (n : ℚ) := by exact_mod_cast hn
  have hlt : r * (n : ℚ) < (n : ℚ) := by nlinarith
  have hfl : ⌊r * (n : ℚ)⌋ < (n : ℤ) := by
    rw [Int.floor_lt]
    exact_mod_cast hlt
  have hnn : 0 ≤ ⌊r * (n : ℚ)⌋ := Int.floor_nonneg.mpr (mul_nonneg h0 hn0.le)
  omega

/-- Claim C9. For every state whose `all` is not empty and every draw `r`
with `0 ≤ r < 1`, the index `floor (r * length)` is below the length, and
with the provider unavailable the handler answers with status 200 and an
element of `all`, leaving the state unchanged; when the cache is the initial
one that element is one of the 15 seed records. -/
theorem random_read_total (s : Server) (r : ℚ) (h0 : 0 ≤ r) (h1 : r < 1)
    (hne : s.quoteCache.all ≠ []) :
    randomIndex r s.quoteCache.all.length < s.quoteCache.all.length ∧
    ∃ q ∈ s.quoteCache.all,
      randomQuoteHandler s none r = (s, Reply.ok 200 (some q.val)) ∧
      (s.quoteCache = initialCache → q.val ∈ fallbackQuotes ∧ fallbackQuotes.length = 15) := by
  have hlen : 0 < s.quoteCache.all.length := List.length_pos.mpr hne
  have hidx := randomIndex_lt r s.quoteCache.all.length h0 h1 hlen
  refine ⟨hidx, s.quoteCache.all.get ⟨_, hidx⟩, List.get_mem _ _ _, ?_, ?_⟩
  · simp only [randomQuoteHandler]
    rw [List.get?_eq_get hidx]
    rfl
  · intro hinit
    refine ⟨?_, rfl⟩
    have hseed : ∀ x ∈ s.quoteCache.all, x.val ∈ fallbackQuotes := by
      rw [hinit]
      exact fun x hx => val_mem_of_mem_allocate fallbackQuotes 0 x hx
    exact hseed _ (List.get_mem _ _ _)

/-- Claim C9 on the initial server with the draw one half. -/
theorem random_read_total_witness :
    (0 : ℚ) ≤ 1 / 2 ∧ (1 / 2 : ℚ) < 1 ∧ initialServer.quoteCache.all ≠ [] ∧
    randomIndex (1 / 2) initialServer.quoteCache.all.length
      < initialServer.quoteCache.all.length :=
  ⟨by norm_num, by norm_num, by decide,
    (random_read_total initialServer (1 / 2) (by norm_num) (by norm_num) (by decide)).1⟩

/-! ## Registration -/

theorem register_unfold (a : Accounts) (username email password : Option String)
    (hash : String → String) (sign : Nat → String → String) (now : Nat) (writeOk : Bool) :
    register a username email password hash sign now writeOk
      = if !(truthy username && truthy email && truthy password) then
          (a, Reply.error 400 "All fields are required")
        else if a.users.any
            (fun user => decide (some user.email = email) ||
              decide (some user.username = username)) then
          (a, Reply.error 400 "User already exists")
        else
          (saveUsers
              { a with
                users := a.users ++
                  [User.mk (a.users.length + 1) (username.getD "") (email.getD "")
                    (hash (password.getD "")) (some []) now] }
              writeOk,
            Reply.ok 201
              { message := "User registered successfully"
                token := sign (a.users.length + 1) (username.getD "")
                user := { id := a.users.length + 1, username := username.getD "",
                          email := email.getD "" } }) := by
  unfold register registerTest registerCommit
  split_ifs <;> rfl

/-- Claim C10. For every account store and every registration request with
the three fields present, when an existing record has the same email or the
same username, the answer is the rejection 400 with the text
User already exists, and the store, file included, is unchanged. -/
theorem register_duplicate_rejected (a : Accounts) (username email password : String)
    (hash : String → String) (sign : Nat → String → String) (now : Nat) (writeOk : Bool)
    (hu : username ≠ "") (he : email ≠ "") (hp : password ≠ "")
    (hdup : ∃ u ∈ a.users, u.email = email ∨ u.username = username) :
    register a (some username) (some email) (some password) hash sign now writeOk
      = (a, Reply.error 400 "User already exists") := by
  have hany : a.users.any
      (fun user => decide (some user.email = some email) ||
        decide (some user.username = some username)) = true := by
    obtain ⟨u, hmem, hor⟩ := hdup
    apply List.any_eq_true.mpr
    refine ⟨u, hmem, ?_⟩
    rcases hor with h | h
    · simp [h]
    · simp [h]
  rw [register_unfold]
  simp only [truthy, hany]
  simp [hu, he, hp]

/-- Claim C10 on a store with the user ann: the same email under another
username, and the same username under another email. -/
theorem register_duplicate_rejected_witness :
    (∃ u ∈ oneUser.users, u.email = "ann@example.org" ∧ u.username ≠ "bob") ∧
    register oneUser (some "bob") (some "ann@example.org") (some "pw") id
        (fun _ name => name) 7 true
      = (oneUser, Reply.error 400 "User already exists") ∧
    (∃ u ∈ oneUser.users, u.username = "ann" ∧ u.email ≠ "bob@example.org") ∧
    register oneUser (some "ann") (some "bob@example.org") (some "pw") id
        (fun _ name => name) 7 true
      = (oneUser, Reply.error 400 "User already exists") :=
  ⟨⟨_, List.mem_cons_self _ _, rfl, by decide⟩,
    register_duplicate_rejected oneUser "bob" "ann@example.org" "pw" id (fun _ name => name) 7
      true (by decide) (by decide) (by decide) ⟨_, List.mem_cons_self _ _, Or.inl rfl⟩,
    ⟨_, List.mem_cons_self _ _, rfl, by decide⟩,
    register_duplicate_rejected oneUser "ann" "bob@example.org" "pw" id (fun _ name => name) 7
      true (by decide) (by decide) (by decide) ⟨_, List.mem_cons_self _ _, Or.inr rfl⟩⟩

/-! ## Lemmas on the account store -/

theorem saveUsers_users (a : Accounts) (writeOk : Bool) : (saveUsers a writeOk).users = a.users := by
  unfold saveUsers
  cases writeOk <;> simp

theorem updateUser_map {β : Type} (g : User → β) (f : User → User) (hf : ∀ u, g (f u) = g u)
    (userId : Nat) (users : List User) : (updateUser users userId f).map g = users.map g := by
  induction users with
  | nil => rfl
  | cons u rest ih =>
    by_cases h : u.id = userId
    · simp [updateUser, h, hf]
    · simp [updateUser, h, ih]

theorem find_updateUser_same (f : User → User) (hf : ∀ u, (f u).id = u.id) (userId : Nat)
    (users : List User) (u : User)
    (h : users.find? (fun user => decide (user.id = userId)) = some u) :
    (updateUser users userId f).find? (fun user => decide (user.id = userId)) = some (f u) := by
  induction users with
  | nil => simp at h
  | cons v rest ih =>
    by_cases hv : v.id = userId
    · simp [List.find?, hv] at h
      subst h
      simp [updateUser, hv, List.find?, hf]
    · simp [List.find?, hv] at h
      simp [updateUser, hv, List.find?, ih h]

theorem find_updateUser_other (f : User → User) (hf : ∀ u, (f u).id = u.id)
    (userId other : Nat) (hne : other ≠ userId) (users : List User) :
    (updateUser users other f).find? (fun user => decide (user.id = userId))
      = users.find? (fun user => decide (user.id = userId)) := by
  induction users with
  | nil => rfl
  | cons v rest ih =>
    by_cases hv : v.id = other
    · have hv2 : ¬ v.id = userId := fun e => hne (hv.symm.trans e)
      have hv3 : ¬ (f v).id = userId := by rw [hf]; exact hv2
      have hup : updateUser (v :: rest) other f = f v :: rest := by simp [updateUser, hv]
      rw [hup, List.find?_cons_of_neg _ (by simpa using hv3),
        List.find?_cons_of_neg _ (by simpa using hv2)]
    · have hup : updateUser (v :: rest) other f = v :: updateUser rest other f := by
        simp [updateUser, hv]
      rw [hup]
      by_cases hv2 : v.id = userId
      · rw [List.find?_cons_of_pos _ (by simpa using hv2),
          List.find?_cons_of_pos _ (by simpa using hv2)]
      · rw [List.find?_cons_of_neg _ (by simpa using hv2),
          List.find?_cons_of_neg _ (by simpa using hv2), ih]

theorem updateUser_fixed (f : User → User) (userId : Nat) (users : List User) (u : User)
    (h : users.find? (fun user => decide (user.id = userId)) = some u) (hfix : f u = u) :
    updateUser users userId f = users := by
  induction users with
  | nil => rfl
  | cons v rest ih =>
    by_cases hv : v.id = userId
    · simp [List.find?, hv] at h
      subst h
      simp [updateUser, hv, hfix]
    · simp [List.find?, hv] at h
      simp [updateUser, hv, ih h]

theorem register_users (a : Accounts) (username email password : Option String)
    (hash : String → String) (sign : Nat → String → String) (now : Nat) (writeOk : Bool) :
    (register a username email password hash sign now writeOk).1.users = a.users ∨
    ∃ un em pw, username = some un ∧ email = some em ∧ password = some pw ∧
      (∀ u ∈ a.users, u.email ≠ em ∧ u.username ≠ un) ∧
      (register a username email password hash sign now writeOk).1.users
        = a.users ++ [⟨a.users.length + 1, un, em, hash pw, some [], now⟩] := by
  rw [register_unfold]
  by_cases h1 : (truthy username && truthy email && truthy password) = true
  · by_cases h2 : a.users.any
        (fun user => decide (some user.email = email) ||
          decide (some user.username = username)) = true
    · left
      simp [h1, h2]
    · right
      cases username with
      | none => simp [truthy] at h1
      | some un =>
        cases email with
        | none => simp [truthy] at h1
        | some em =>
          cases password with
          | none => simp [truthy] at h1
          | some pw =>
            refine ⟨un, em, pw, rfl, rfl, rfl, ?_, ?_⟩
            · intro u hu
              have h3 : ¬ (u.email = em ∨ u.username = un) := by
                intro hor
                apply h2
                apply List.any_eq_true.mpr
                refine ⟨u, hu, ?_⟩
                rcases hor with h | h
                · simp [h]
                · simp [h]
              exact ⟨fun e => h3 (Or.inl e), fun e => h3 (Or.inr e)⟩
            · simp only [h1, h2, Bool.not_true, Bool.false_eq_true, if_false, saveUsers_users,
                Option.getD_some]
  · left
    simp [h1]

theorem addFavorite_users (a : Accounts) (userId : Nat) (quote : Option Quote) (writeOk : Bool) :
    (addFavorite a userId quote writeOk).1.users = a.users ∨
    ∃ favs, (addFavorite a userId quote writeOk).1.users
      = updateUser a.users userId (fun u => { u with favorites := some favs }) := by
  unfold addFavorite
  cases quote with
  | none => left; rfl
  | some q =>
    by_cases h1 : q.content = "" ∨ q.author = ""
    · left; simp only [h1, if_true]
    · cases hf : a.users.find? (fun user => decide (user.id = userId)) with
      | none => left; simp only [h1, if_false]
      | some user =>
        by_cases h2 : (user.favorites.getD []).any (sameFavorite q.content q.author) = true
        · left; simp only [h1, if_false, h2, if_true]
        · right
          refine ⟨user.favorites.getD [] ++ [q], ?_⟩
          simp only [h1, if_false, h2, Bool.false_eq_true, saveUsers_users]

theorem removeFavorite_users (a : Accounts) (userId : Nat) (content author : Option String)
    (writeOk : Bool) :
    (removeFavorite a userId content author writeOk).1.users = a.users ∨
    ∃ favs, (removeFavorite a userId content author writeOk).1.users
      = updateUser a.users userId (fun u => { u with favorites := some favs }) := by
  unfold removeFavorite
  by_cases h1 : (truthy content && truthy author) = true
  · cases hf : a.users.find? (fun user => decide (user.id = userId)) with
    | none => left; simp [h1]
    | some user =>
      cases hfav : user.favorites with
      | none => left; simp [h1, hfav]
      | some favorites =>
        right
        refine ⟨favorites.filter
          (fun q => decide (some q.content ≠ content) || decide (some q.author ≠ author)), ?_⟩
        simp [h1, hfav, saveUsers_users]
  · left; simp [h1]

/-! ## Uniqueness of accounts -/

theorem uniqueAccounts_of_favorites_update (a : Accounts) (users : List User) (userId : Nat)
    (favs : List Quote) (h : UniqueAccounts a)
    (hu : users = a.users ∨
      users = updateUser a.users userId (fun u => { u with favorites := some favs }))
    (b : Accounts) (hb : b.users = users) : UniqueAccounts b := by
  have hid : b.users.map (fun u => u.id) = a.users.map (fun u => u.id) := by
    rw [hb]
    rcases hu with e | e
    · rw [e]
    · rw [e]
      apply updateUser_map
      intro u
      rfl
  have hname : b.users.map (fun u => u.username) = a.users.map (fun u => u.username) := by
    rw [hb]
    rcases hu with e | e
    · rw [e]
    · rw [e]
      apply updateUser_map
      intro u
      rfl
  have hmail : b.users.map (fun u => u.email) = a.users.map (fun u => u.email) := by
    rw [hb]
    rcases hu with e | e
    · rw [e]
    · rw [e]
      apply updateUser_map
      intro u
      rfl
  have hlen : b.users.length = a.users.length := by
    have := congrArg List.length hid
    simpa using this
  unfold UniqueAccounts
  rw [hid, hname, hmail, hlen]
  exact h

theorem uniqueAccounts_applyAccountOp (hash : String → String) (sign : Nat → String → String)
    (a : Accounts) (op : AccountOp) (h : UniqueAccounts a) :
    UniqueAccounts (applyAccountOp hash sign a op) := by
  cases op with
  | register username email password now writeOk =>
    rcases register_users a username email password hash sign now writeOk with e |
      ⟨un, em, pw, _, _, _, hnew, e⟩
    · exact uniqueAccounts_of_favorites_update a _ 0 [] h (Or.inl rfl) _ e
    · obtain ⟨h1, h2, h3⟩ := h
      show UniqueAccounts (register a username email password hash sign now writeOk).1
      unfold UniqueAccounts
      rw [e]
      refine ⟨?_, ?_, ?_⟩
      · rw [List.map_append, h1, List.length_append]
        simp only [List.map_cons, List.map_nil, List.length_singleton]
        rw [List.range'_concat]
        simp [Nat.add_comm]
      · rw [List.map_append, List.nodup_append]
        refine ⟨h2, by simp, ?_⟩
        intro x hx hy
        obtain ⟨u, hu, rfl⟩ := List.mem_map.mp hx
        simp only [List.map_cons, List.map_nil, List.mem_singleton] at hy
        exact (hnew u hu).2 hy
      · rw [List.map_append, List.nodup_append]
        refine ⟨h3, by simp, ?_⟩
        intro x hx hy
        obtain ⟨u, hu, rfl⟩ := List.mem_map.mp hx
        simp only [List.map_cons, List.map_nil, List.mem_singleton] at hy
        exact (hnew u hu).1 hy
  | addFavorite userId quote writeOk =>
    rcases addFavorite_users a userId quote writeOk with e | ⟨favs, e⟩
    · exact uniqueAccounts_of_favorites_update a _ userId [] h (Or.inl rfl) _ e
    · exact uniqueAccounts_of_favorites_update a _ userId favs h (Or.inr rfl) _ e
  | removeFavorite userId content author writeOk =>
    rcases removeFavorite_users a userId content author writeOk with e | ⟨favs, e⟩
    · exact uniqueAccounts_of_favorites_update a _ userId [] h (Or.inl rfl) _ e
    · exact uniqueAccounts_of_favorites_update a _ userId favs h (Or.inr rfl) _ e

theorem uniqueAccounts_run (hash : String → String) (sign : Nat → String → String)
    (ops : List AccountOp) :
    ∀ a : Accounts, UniqueAccounts a → UniqueAccounts (runAccounts hash sign a ops) := by
  induction ops with
  | nil => intro a h; exact h
  | cons op ops ih =>
    intro a h
    exact ih _ (uniqueAccounts_applyAccountOp hash sign a op h)

/-- Uniqueness without overlap. Starting from the empty account store, after
any sequence of register, addFavorite and removeFavorite requests none of
which is served during the `await` of a registration, accepted or rejected,
the record at index k of the array, counted from 0, has id k + 1 (a
registration appends and nothing removes or reorders, so this is the user
registered in place k + 1), and the ids, the usernames and the emails are
pairwise distinct. -/
theorem accounts_unique (hash : String → String) (sign : Nat → String → String)
    (ops : List AccountOp) :
    (∀ (k : Nat) (u : User),
      (runAccounts hash sign emptyAccounts ops).users.get? k = some u → u.id = k + 1) ∧
    ((runAccounts hash sign emptyAccounts ops).users.map (fun u => u.id)).Nodup ∧
    ((runAccounts hash sign emptyAccounts ops).users.map (fun u => u.username)).Nodup ∧
    ((runAccounts hash sign emptyAccounts ops).users.map (fun u => u.email)).Nodup := by
  have hinit : UniqueAccounts emptyAccounts := by
    refine ⟨rfl, ?_, ?_⟩ <;> simp [emptyAccounts]
  obtain ⟨h1, h2, h3⟩ := uniqueAccounts_run hash sign ops emptyAccounts hinit
  refine ⟨?_, ?_, h2, h3⟩
  · intro k u hk
    rw [List.get?_eq_getElem?] at hk
    have hmap : ((runAccounts hash sign emptyAccounts ops).users.map (fun u => u.id))[k]?
        = some u.id := by
      rw [List.getElem?_map, hk]; rfl
    rw [h1] at hmap
    have hlt : k < (runAccounts hash sign emptyAccounts ops).users.length := by
      rcases Nat.lt_or_ge k (runAccounts hash sign emptyAccounts ops).users.length with hlt | hge
      · exact hlt
      · rw [List.getElem?_eq_none hge] at hk; simp at hk
    rw [List.getElem?_range' _ _ hlt] at hmap
    simp at hmap
    omega
  · rw [h1]
    exact List.nodup_range' _ _

theorem registerCommit_users (a : Accounts) (username email password : Option String)
    (hash : String → String) (sign : Nat → String → String) (now : Nat) (writeOk : Bool) :
    (registerCommit a username email password hash sign now writeOk).1.users
      = a.users ++ [User.mk (a.users.length + 1) (username.getD "") (email.getD "")
          (hash (password.getD "")) (some []) now] := by
  unfold registerCommit
  simp only [saveUsers_users]

theorem ids_of_same_ids (a b : Accounts)
    (hid : b.users.map (fun u => u.id) = a.users.map (fun u => u.id))
    (h : a.users.map (fun u => u.id) = List.range' 1 a.users.length) :
    b.users.map (fun u => u.id) = List.range' 1 b.users.length := by
  have hlen : b.users.length = a.users.length := by
    have := congrArg List.length hid
    simpa using this
  rw [hid, hlen]
  exact h

theorem ids_of_append (a b : Accounts) (u : User) (hu : b.users = a.users ++ [u])
    (hid : u.id = a.users.length + 1)
    (h : a.users.map (fun u => u.id) = List.range' 1 a.users.length) :
    b.users.map (fun u => u.id) = List.range' 1 b.users.length := by
  rw [hu, List.map_append, h, List.length_append]
  simp only [List.map_cons, List.map_nil, List.length_singleton, hid]
  rw [List.range'_concat]
  simp [Nat.add_comm]

theorem ids_applyAccountOp (hash : String → String) (sign : Nat → String → String)
    (a : Accounts) (op : AccountOp)
    (h : a.users.map (fun u => u.id) = List.range' 1 a.users.length) :
    (applyAccountOp hash sign a op).users.map (fun u => u.id)
      = List.range' 1 (applyAccountOp hash sign a op).users.length := by
  cases op with
  | register username email password now writeOk =>
    rcases register_users a username email password hash sign now writeOk with e |
      ⟨un, em, pw, _, _, _, _, e⟩
    · exact ids_of_same_ids a _ (by rw [show (applyAccountOp hash sign a
        (AccountOp.register username email password now writeOk)).users = a.users from e]) h
    · exact ids_of_append a _ _ e rfl h
  | addFavorite userId quote writeOk =>
    rcases addFavorite_users a userId quote writeOk with e | ⟨favs, e⟩
    · exact ids_of_same_ids a _ (by rw [show (applyAccountOp hash sign a
        (AccountOp.addFavorite userId quote writeOk)).users = a.users from e]) h
    · refine ids_of_same_ids a _ ?_ h
      rw [show (applyAccountOp hash sign a (AccountOp.addFavorite userId quote writeOk)).users
        = _ from e]
      apply updateUser_map
      intro u
      rfl
  | removeFavorite userId content author writeOk =>
    rcases removeFavorite_users a userId content author writeOk with e | ⟨favs, e⟩
    · exact ids_of_same_ids a _ (by rw [show (applyAccountOp hash sign a
        (AccountOp.removeFavorite userId content author writeOk)).users = a.users from e]) h
    · refine ids_of_same_ids a _ ?_ h
      rw [show (applyAccountOp hash sign a
        (AccountOp.removeFavorite userId content author writeOk)).users = _ from e]
      apply updateUser_map
      intro u
      rfl

theorem ids_stepAccounts (hash : String → String) (sign : Nat → String → String)
    (sys : AccountSystem) (ev : AccountEvent)
    (h : sys.accounts.users.map (fun u => u.id) = List.range' 1 sys.accounts.users.length) :
    (stepAccounts hash sign sys ev).accounts.users.map (fun u => u.id)
      = List.range' 1 (stepAccounts hash sign sys ev).accounts.users.length := by
  cases ev with
  | registerArrives username email password =>
    cases h1 : registerTest sys.accounts username email password with
    | some r =>
      simp only [stepAccounts, h1]
      exact h
    | none =>
      simp only [stepAccounts, h1]
      exact h
  | hashResolves i now writeOk =>
    cases h1 : sys.pending.get? i with
    | none =>
      simp only [stepAccounts, h1]
      exact h
    | some r =>
      simp only [stepAccounts, h1]
      exact ids_of_append sys.accounts _ _
        (registerCommit_users sys.accounts r.username r.email r.password hash sign now writeOk)
        rfl h
  | request op => exact ids_applyAccountOp hash sign sys.accounts op h

theorem ids_runEvents (hash : String → String) (sign : Nat → String → String)
    (evs : List AccountEvent) :
    ∀ sys : AccountSystem,
      sys.accounts.users.map (fun u => u.id) = List.range' 1 sys.accounts.users.length →
      (runEvents hash sign sys evs).accounts.users.map (fun u => u.id)
        = List.range' 1 (runEvents hash sign sys evs).accounts.users.length := by
  induction evs with
  | nil => intro sys h; exact h
  | cons ev evs ih =>
    intro sys h
    exact ih _ (ids_stepAccounts hash sign sys ev h)

/-- Claim C11 at its failing input. Two registrations with the same body, the
second arriving while the first waits for `bcrypt.hash`, both pass the test
of line 272 on the empty store and both are pushed: the store holds two
records with the username ann and the email of ann, with the ids 1 and 2.
Under every interleaving the ids are 1, 2, ... in the order of the array, so
they are pairwise distinct; and when no request is served during the `await`
of a registration the usernames and the emails are pairwise distinct too. -/
theorem overlapping_registrations_duplicate :
    (runEvents id (fun _ name => name) ⟨emptyAccounts, []⟩ doubleClick).accounts.users.map
        (fun u => (u.id, u.username, u.email))
      = [(1, "ann", "ann@example.org"), (2, "ann", "ann@example.org")] ∧
    ¬ ((runEvents id (fun _ name => name) ⟨emptyAccounts, []⟩ doubleClick).accounts.users.map
        (fun u => u.username)).Nodup ∧
    ¬ ((runEvents id (fun _ name => name) ⟨emptyAccounts, []⟩ doubleClick).accounts.users.map
        (fun u => u.email)).Nodup ∧
    (∀ (hash : String → String) (sign : Nat → String → String) (evs : List AccountEvent),
      (runEvents hash sign ⟨emptyAccounts, []⟩ evs).accounts.users.map (fun u => u.id)
        = List.range' 1 (runEvents hash sign ⟨emptyAccounts, []⟩ evs).accounts.users.length ∧
      ((runEvents hash sign ⟨emptyAccounts, []⟩ evs).accounts.users.map
        (fun u => u.id)).Nodup) ∧
    (∀ (hash : String → String) (sign : Nat → String → String) (ops : List AccountOp),
      ((runAccounts hash sign emptyAccounts ops).users.map (fun u => u.id)).Nodup ∧
      ((runAccounts hash sign emptyAccounts ops).users.map (fun u => u.username)).Nodup ∧
      ((runAccounts hash sign emptyAccounts ops).users.map (fun u => u.email)).Nodup) := by
  refine ⟨by decide, by decide, by decide, ?_, ?_⟩
  · intro hash sign evs
    have h := ids_runEvents hash sign evs ⟨emptyAccounts, []⟩ rfl
    refine ⟨h, ?_⟩
    rw [h]
    exact List.nodup_range' _ _
  · intro hash sign ops
    exact (accounts_unique hash sign ops).2

/-! ## Registration and login -/

/-- Claim C12. For every account store with n records and every request
whose username, email and password are not empty and whose email and
username match no record, register appends one record with id n + 1, the
given username and email, the digest `hash password` as password and an
empty favorites list, keeps the n earlier records, and answers 201 with that
id, username and email. -/
theorem register_success (a : Accounts) (username email password : String)
    (hash : String → String) (sign : Nat → String → String) (now : Nat) (writeOk : Bool)
    (hu : username ≠ "") (he : email ≠ "") (hp : password ≠ "")
    (hnew : ∀ u ∈ a.users, u.email ≠ email ∧ u.username ≠ username) :
    (register a (some username) (some email) (some password) hash sign now writeOk).1.users
      = a.users ++ [{ id := a.users.length + 1, username := username, email := email,
                      password := hash password, favorites := some [], createdAt := now }] ∧
    (register a (some username) (some email) (some password) hash sign now writeOk).1.users.length
      = a.users.length + 1 ∧
    (register a (some username) (some email) (some password) hash sign now
      writeOk).1.users.take a.users.length = a.users ∧
    (register a (some username) (some email) (some password) hash sign now writeOk).2
      = Reply.ok 201
          { message := "User registered successfully"
            token := sign (a.users.length + 1) username
            user := { id := a.users.length + 1, username := username, email := email } } := by
  have hany : a.users.any
      (fun user => decide (some user.email = some email) ||
        decide (some user.username = some username)) = false := by
    rw [List.any_eq_false]
    intro u hmem
    have h := hnew u hmem
    simp [h.1, h.2]
  have hreg : register a (some username) (some email) (some password) hash sign now writeOk
      = (saveUsers
          { a with
            users := a.users ++
              [User.mk (a.users.length + 1) username email (hash password) (some []) now] }
          writeOk,
        Reply.ok 201
          { message := "User registered successfully"
            token := sign (a.users.length + 1) username
            user := { id := a.users.length + 1, username := username, email := email } }) := by
    rw [register_unfold]
    simp only [truthy, hany]
    simp [hu, he, hp]
  rw [hreg]
  simp [saveUsers_users]

/-- Claim C12 on the store with the user ann and a request for bob. -/
theorem register_success_witness :
    (register oneUser (some "bob") (some "bob@example.org") (some "pw") (fun p => "h:" ++ p)
        (fun _ name => name) 7 false).1.users
      = oneUser.users ++ [{ id := 2, username := "bob", email := "bob@example.org",
                            password := "h:pw", favorites := some [], createdAt := 7 }] :=
  (register_success oneUser "bob" "bob@example.org" "pw" (fun p => "h:" ++ p)
    (fun _ name => name) 7 false (by decide) (by decide) (by decide) (by decide)).1

/-- Claim C13. For every account store and every two login requests with
non-empty email and password, the first failing because no record has its
email and the second because the comparison of its password with the digest
of the record found is false, both answers are the rejection 401 with the
text Invalid credentials, and the store is unchanged. -/
theorem login_failures_indistinguishable (a : Accounts) (e1 p1 e2 p2 : String)
    (compare : String → String → Bool) (sign : Nat → String → String) (u : User)
    (he1 : e1 ≠ "") (hp1 : p1 ≠ "") (he2 : e2 ≠ "") (hp2 : p2 ≠ "")
    (habsent : ∀ v ∈ a.users, v.email ≠ e1)
    (hfound : a.users.find? (fun user => decide (some user.email = some e2)) = some u)
    (hwrong : compare p2 u.password = false) :
    login a (some e1) (some p1) compare sign = (a, Reply.error 401 "Invalid credentials") ∧
    login a (some e2) (some p2) compare sign = (a, Reply.error 401 "Invalid credentials") ∧
    login a (some e1) (some p1) compare sign = login a (some e2) (some p2) compare sign := by
  have hnone : a.users.find? (fun user => decide (some user.email = some e1)) = none := by
    rw [List.find?_eq_none]
    intro v hv
    simpa using habsent v hv
  have h1 : login a (some e1) (some p1) compare sign
      = (a, Reply.error 401 "Invalid credentials") := by
    unfold login
    simp only [truthy, hnone]
    simp [he1, hp1]
  have h2 : login a (some e2) (some p2) compare sign
      = (a, Reply.error 401 "Invalid credentials") := by
    unfold login
    simp only [truthy, hfound, Option.getD_some, hwrong]
    simp [he2, hp2]
  exact ⟨h1, h2, h1.trans h2.symm⟩

/-- Claim C13 on the store with the user ann: an unknown email, and the email
of ann with a password the comparison rejects. -/
theorem login_failures_indistinguishable_witness :
    login oneUser (some "nobody@example.org") (some "guess") (fun _ _ => false)
        (fun _ name => name)
      = login oneUser (some "ann@example.org") (some "wrong") (fun _ _ => false)
        (fun _ name => name) :=
  (login_failures_indistinguishable oneUser "nobody@example.org" "guess" "ann@example.org"
    "wrong" (fun _ _ => false) (fun _ name => name)
    { id := 1, username := "ann", email := "ann@example.org", password := "digest",
      favorites := some [], createdAt := 0 }
    (by decide) (by decide) (by decide) (by decide) (by decide) (by decide) rfl).2.2

/-! ## Favorites -/

theorem addFavorite_new (a : Accounts) (userId : Nat) (u : User) (q : Quote) (writeOk : Bool)
    (hfind : a.users.find? (fun user => decide (user.id = userId)) = some u)
    (hc : q.content ≠ "") (ha : q.author ≠ "")
    (hno : (u.favorites.getD []).any (sameFavorite q.content q.author) = false) :
    addFavorite a userId (some q) writeOk
      = (saveUsers
          { a with
            users := updateUser a.users userId
              (fun v => { v with favorites := some (u.favorites.getD [] ++ [q]) }) }
          writeOk,
        Reply.ok 201
          { message := "Quote added to favorites"
            favorites := some (u.favorites.getD [] ++ [q]) }) := by
  unfold addFavorite
  simp only [hfind, hno]
  simp [hc, ha]

theorem addFavorite_dup (a : Accounts) (userId : Nat) (u : User) (q : Quote) (writeOk : Bool)
    (hfind : a.users.find? (fun user => decide (user.id = userId)) = some u)
    (hc : q.content ≠ "") (ha : q.author ≠ "")
    (hdup : (u.favorites.getD []).any (sameFavorite q.content q.author) = true) :
    addFavorite a userId (some q) writeOk = (a, Reply.error 400 "Quote already in favorites") := by
  unfold addFavorite
  simp only [hfind, hdup]
  simp [hc, ha]

theorem removeFavorite_found (a : Accounts) (userId : Nat) (u : User) (favs : List Quote)
    (content author : String) (writeOk : Bool)
    (hfind : a.users.find? (fun user => decide (user.id = userId)) = some u)
    (hfav : u.favorites = some favs) (hc : content ≠ "") (ha : author ≠ "") :
    removeFavorite a userId (some content) (some author) writeOk
      = (saveUsers
          { a with
            users := updateUser a.users userId
              (fun v => { v with
                favorites := some (favs.filter (fun q => !(sameFavorite content author q))) }) }
          writeOk,
        Reply.ok 200
          { message := "Quote removed from favorites"
            favorites := some (favs.filter (fun q => !(sameFavorite content author q))) }) := by
  have hfilter : favs.filter
      (fun q => decide (some q.content ≠ some content) || decide (some q.author ≠ some author))
      = favs.filter (fun q => !(sameFavorite content author q)) := by
    apply List.filter_congr
    intro q _
    by_cases h1 : q.content = content <;> by_cases h2 : q.author = author <;>
      simp [sameFavorite, h1, h2]
  unfold removeFavorite
  simp only [hfind, hfav, hfilter, truthy]
  simp [hc, ha]

theorem favoritesOf_update (a : Accounts) (userId : Nat) (u : User) (favs : List Quote)
    (writeOk : Bool)
    (hfind : a.users.find? (fun user => decide (user.id = userId)) = some u) :
    favoritesOf
      (saveUsers
        { a with users := updateUser a.users userId (fun v => { v with favorites := some favs }) }
        writeOk) userId = some favs := by
  unfold favoritesOf
  rw [saveUsers_users]
  show ((updateUser a.users userId (fun v => { v with favorites := some favs })).find?
    (fun user => decide (user.id = userId))).bind (fun user => user.favorites) = some favs
  rw [find_updateUser_same (fun v => { v with favorites := some favs }) (fun _ => rfl) userId
    a.users u hfind]
  rfl

theorem find_update_favorites (a : Accounts) (userId : Nat) (u : User) (favs : List Quote)
    (writeOk : Bool)
    (hfind : a.users.find? (fun user => decide (user.id = userId)) = some u) :
    (saveUsers
        { a with users := updateUser a.users userId (fun v => { v with favorites := some favs }) }
        writeOk).users.find? (fun user => decide (user.id = userId))
      = some { u with favorites := some favs } := by
  rw [saveUsers_users]
  exact find_updateUser_same (fun v => { v with favorites := some favs }) (fun _ => rfl) userId
    a.users u hfind

/-- Claim C14. For every user with an empty favorites list and every quote
with non-empty content and author, the first addFavorite answers 201 with
the one-element list holding the quote; a second addFavorite with a quote of
the same content and author answers 400 with the text
Quote already in favorites, and the favorites of the user are still that
one-element list. -/
theorem add_favorite_twice (a : Accounts) (userId : Nat) (u : User) (q q2 : Quote)
    (w1 w2 : Bool)
    (hfind : a.users.find? (fun user => decide (user.id = userId)) = some u)
    (hempty : u.favorites.getD [] = [])
    (hc : q.content ≠ "") (ha : q.author ≠ "")
    (hsame : q2.content = q.content ∧ q2.author = q.author) :
    (addFavorite a userId (some q) w1).2
      = Reply.ok 201 { message := "Quote added to favorites", favorites := some [q] } ∧
    (addFavorite (addFavorite a userId (some q) w1).1 userId (some q2) w2).2
      = Reply.error 400 "Quote already in favorites" ∧
    favoritesOf (addFavorite (addFavorite a userId (some q) w1).1 userId (some q2) w2).1 userId
      = some [q] ∧
    (addFavorite (addFavorite a userId (some q) w1).1 userId (some q2) w2).1
      = (addFavorite a userId (some q) w1).1 := by
  have hno : (u.favorites.getD []).any (sameFavorite q.content q.author) = false := by
    rw [hempty]; rfl
  have h1 := addFavorite_new a userId u q w1 hfind hc ha hno
  rw [hempty, List.nil_append] at h1
  have hfind1 := find_update_favorites a userId u [q] w1 hfind
  have hfav1 := favoritesOf_update a userId u [q] w1 hfind
  have hdup : (({ u with favorites := some [q] } : User).favorites.getD []).any
      (sameFavorite q2.content q2.author) = true := by
    simp [sameFavorite, hsame.1, hsame.2]
  have hc2 : q2.content ≠ "" := by rw [hsame.1]; exact hc
  have ha2 : q2.author ≠ "" := by rw [hsame.2]; exact ha
  have h2 := addFavorite_dup _ userId _ q2 w2 hfind1 hc2 ha2 hdup
  rw [h1]
  refine ⟨rfl, ?_, ?_, ?_⟩
  · rw [h2]
  · rw [h2]; exact hfav1
  · rw [h2]

/-- Claim C14 on the store where ann has no favorite. -/
theorem add_favorite_twice_witness :
    (addFavorite oneUser 1 (some carpeDiem) true).2
      = Reply.ok 201 { message := "Quote added to favorites", favorites := some [carpeDiem] } ∧
    (addFavorite (addFavorite oneUser 1 (some carpeDiem) true).1 1
        (some ⟨"Carpe diem.", "Horace", [], none⟩) true).2
      = Reply.error 400 "Quote already in favorites" :=
  ⟨(add_favorite_twice oneUser 1
      { id := 1, username := "ann", email := "ann@example.org", password := "digest",
        favorites := some [], createdAt := 0 }
      carpeDiem ⟨"Carpe diem.", "Horace", [], none⟩ true true (by decide) rfl (by decide)
      (by decide) ⟨rfl, rfl⟩).1,
    (add_favorite_twice oneUser 1
      { id := 1, username := "ann", email := "ann@example.org", password := "digest",
        favorites := some [], createdAt := 0 }
      carpeDiem ⟨"Carpe diem.", "Horace", [], none⟩ true true (by decide) rfl (by decide)
      (by decide) ⟨rfl, rfl⟩).2.1⟩

/-- Claim C16. For every known user with a favorites list and every non-empty
content and author that match no entry of the list on both fields,
removeFavorite answers 200 with the original list and leaves the array of
users as it was. -/
theorem remove_absent_favorite_noop (a : Accounts) (userId : Nat) (u : User)
    (favs : List Quote) (content author : String) (writeOk : Bool)
    (hfind : a.users.find? (fun user => decide (user.id = userId)) = some u)
    (hfav : u.favorites = some favs) (hc : content ≠ "") (ha : author ≠ "")
    (hno : ∀ q ∈ favs, ¬ (q.content = content ∧ q.author = author)) :
    (removeFavorite a userId (some content) (some author) writeOk).2
      = Reply.ok 200 { message := "Quote removed from favorites", favorites := some favs } ∧
    (removeFavorite a userId (some content) (some author) writeOk).1.users = a.users ∧
    favoritesOf (removeFavorite a userId (some content) (some author) writeOk).1 userId
      = some favs := by
  have hkeep : favs.filter (fun q => !(sameFavorite content author q)) = favs := by
    rw [List.filter_eq_self]
    intro q hq
    have h := hno q hq
    by_cases h1 : q.content = content
    · have h2 : ¬ q.author = author := fun e => h ⟨h1, e⟩
      simp [sameFavorite, h1, h2]
    · simp [sameFavorite, h1]
  have hrem := removeFavorite_found a userId u favs content author writeOk hfind hfav hc ha
  rw [hkeep] at hrem
  have hsame : ({ u with favorites := some favs } : User) = u := by
    cases u
    simp only at hfav
    subst hfav
    rfl
  have husers : updateUser a.users userId (fun v => { v with favorites := some favs })
      = a.users := updateUser_fixed _ userId a.users u hfind hsame
  rw [hrem]
  refine ⟨rfl, ?_, ?_⟩
  · rw [saveUsers_users]; exact husers
  · exact favoritesOf_update a userId u favs writeOk hfind

/-- Claim C16 on the store where ann has one favorite: removing a quote with
the content of the favorite and another author. -/
theorem remove_absent_favorite_noop_witness :
    (removeFavorite annWithFavorite 1 (some "Carpe diem.") (some "Ovid") true).2
      = Reply.ok 200
          { message := "Quote removed from favorites", favorites := some [carpeDiem] } ∧
    (removeFavorite annWithFavorite 1 (some "Carpe diem.") (some "Ovid") true).1.users
      = annWithFavorite.users :=
  ⟨(remove_absent_favorite_noop annWithFavorite 1
      { id := 1, username := "ann", email := "ann@example.org", password := "digest",
        favorites := some [carpeDiem], createdAt := 0 }
      [carpeDiem] "Carpe diem." "Ovid" true (by decide) rfl (by decide) (by decide)
      (by decide)).1,
    (remove_absent_favorite_noop annWithFavorite 1
      { id := 1, username := "ann", email := "ann@example.org", password := "digest",
        favorites := some [carpeDiem], createdAt := 0 }
      [carpeDiem] "Carpe diem." "Ovid" true (by decide) rfl (by decide) (by decide)
      (by decide)).2.1⟩

/-- Claim C17. For every known user with a favorites list and every non-empty
content and author, the list removeFavorite returns and stores is the
original list without the entries matching on both content and author: the
other entries stay, in their order; an entry with the same content and
another author stays; no matching entry remains. -/
theorem remove_favorite_by_pair (a : Accounts) (userId : Nat) (u : User)
    (favs : List Quote) (content author : String) (writeOk : Bool)
    (hfind : a.users.find? (fun user => decide (user.id = userId)) = some u)
    (hfav : u.favorites = some favs) (hc : content ≠ "") (ha : author ≠ "") :
    ∃ kept : List Quote,
      (removeFavorite a userId (some content) (some author) writeOk).2
        = Reply.ok 200 { message := "Quote removed from favorites", favorites := some kept } ∧
      favoritesOf (removeFavorite a userId (some content) (some author) writeOk).1 userId
        = some kept ∧
      kept = favs.filter (fun q => !(sameFavorite content author q)) ∧
      kept.Sublist favs ∧
      (∀ q, q ∈ kept ↔ q ∈ favs ∧ ¬ (q.content = content ∧ q.author = author)) ∧
      (∀ q ∈ favs, q.content = content → q.author ≠ author → q ∈ kept) ∧
      (∀ q ∈ kept, ¬ (q.content = content ∧ q.author = author)) := by
  have hrem := removeFavorite_found a userId u favs content author writeOk hfind hfav hc ha
  have hmem : ∀ q, q ∈ favs.filter (fun q => !(sameFavorite content author q)) ↔
      q ∈ favs ∧ ¬ (q.content = content ∧ q.author = author) := by
    intro q
    rw [List.mem_filter]
    constructor
    · rintro ⟨h1, h2⟩
      refine ⟨h1, ?_⟩
      rintro ⟨e1, e2⟩
      simp [sameFavorite, e1, e2] at h2
    · rintro ⟨h1, h2⟩
      refine ⟨h1, ?_⟩
      by_cases e1 : q.content = content
      · have e2 : ¬ q.author = author := fun e => h2 ⟨e1, e⟩
        simp [sameFavorite, e1, e2]
      · simp [sameFavorite, e1]
  refine ⟨favs.filter (fun q => !(sameFavorite content author q)), ?_, ?_, rfl,
    List.filter_sublist _, hmem, ?_, ?_⟩
  · rw [hrem]
  · rw [hrem]; exact favoritesOf_update a userId u _ writeOk hfind
  · intro q hq h1 h2
    exact (hmem q).mpr ⟨hq, fun h => h2 h.2⟩
  · intro q hq
    exact ((hmem q).mp hq).2

/-- Claim C17 on the store where ann has one favorite: removing it by its
content and author leaves the empty list. -/
theorem remove_favorite_by_pair_witness :
    ∃ kept : List Quote,
      (removeFavorite annWithFavorite 1 (some "Carpe diem.") (some "Horace") true).2
        = Reply.ok 200 { message := "Quote removed from favorites", favorites := some kept } ∧
      kept = [] := by
  obtain ⟨kept, h1, _, h3, _⟩ := remove_favorite_by_pair annWithFavorite 1
    { id := 1, username := "ann", email := "ann@example.org", password := "digest",
      favorites := some [carpeDiem], createdAt := 0 }
    [carpeDiem] "Carpe diem." "Horace" true (by decide) rfl (by decide) (by decide)
  exact ⟨kept, h1, h3.trans (by decide)⟩

/-! ## Favorites stay free of duplicates -/

theorem dupFree_append_new (favs : List Quote) (q : Quote) (h : DupFree favs)
    (hno : favs.any (sameFavorite q.content q.author) = false) : DupFree (favs ++ [q]) := by
  unfold DupFree
  rw [List.pairwise_append]
  refine ⟨h, List.pairwise_singleton _ _, ?_⟩
  intro x hx y hy
  rw [List.mem_singleton] at hy
  subst hy
  rw [List.any_eq_false] at hno
  intro hxy
  apply hno x hx
  simp [sameFavorite, hxy.1, hxy.2]

theorem dupFree_filter (favs : List Quote) (p : Quote → Bool) (h : DupFree favs) :
    DupFree (favs.filter p) :=
  List.Pairwise.sublist (List.filter_sublist favs) h

theorem dupFree_after_update (users : List User) (userId other : Nat) (u : User)
    (newFavs : List Quote)
    (hfind : users.find? (fun user => decide (user.id = userId)) = some u)
    (hdf : DupFree (u.favorites.getD []))
    (hnew : other = userId → DupFree newFavs) :
    ∃ v, (updateUser users other (fun x => { x with favorites := some newFavs })).find?
        (fun user => decide (user.id = userId)) = some v ∧
      DupFree (v.favorites.getD []) := by
  by_cases ho : other = userId
  · subst ho
    refine ⟨{ u with favorites := some newFavs }, ?_, hnew rfl⟩
    exact find_updateUser_same (fun x => { x with favorites := some newFavs }) (fun _ => rfl)
      other users u hfind
  · refine ⟨u, ?_, hdf⟩
    rw [find_updateUser_other (fun x => { x with favorites := some newFavs }) (fun _ => rfl)
      userId other ho users]
    exact hfind

theorem dupFree_applyAccountOp (hash : String → String) (sign : Nat → String → String)
    (a : Accounts) (op : AccountOp) (userId : Nat) (u : User)
    (hfind : a.users.find? (fun user => decide (user.id = userId)) = some u)
    (hdf : DupFree (u.favorites.getD [])) :
    ∃ v, (applyAccountOp hash sign a op).users.find? (fun user => decide (user.id = userId))
        = some v ∧ DupFree (v.favorites.getD []) := by
  cases op with
  | register username email password now writeOk =>
    show ∃ v, (register a username email password hash sign now writeOk).1.users.find?
      (fun user => decide (user.id = userId)) = some v ∧ DupFree (v.favorites.getD [])
    rcases register_users a username email password hash sign now writeOk with e |
      ⟨un, em, pw, _, _, _, _, e⟩
    · rw [e]; exact ⟨u, hfind, hdf⟩
    · rw [e, List.find?_append, hfind]
      exact ⟨u, rfl, hdf⟩
  | addFavorite other quote writeOk =>
    show ∃ v, (addFavorite a other quote writeOk).1.users.find?
      (fun user => decide (user.id = userId)) = some v ∧ DupFree (v.favorites.getD [])
    cases quote with
    | none => exact ⟨u, hfind, hdf⟩
    | some q =>
      by_cases hq : q.content = "" ∨ q.author = ""
      · have e : addFavorite a other (some q) writeOk
            = (a, Reply.error 400 "Valid quote is required") := by
          unfold addFavorite
          simp only [hq, if_true]
        rw [e]; exact ⟨u, hfind, hdf⟩
      · have hc : q.content ≠ "" := fun e => hq (Or.inl e)
        have ha : q.author ≠ "" := fun e => hq (Or.inr e)
        cases hf : a.users.find? (fun user => decide (user.id = other)) with
        | none =>
          have e : addFavorite a other (some q) writeOk
              = (a, Reply.error 404 "User not found") := by
            unfold addFavorite
            simp only [hq, if_false, hf]
          rw [e]; exact ⟨u, hfind, hdf⟩
        | some w =>
          by_cases hany : (w.favorites.getD []).any (sameFavorite q.content q.author) = true
          · rw [addFavorite_dup a other w q writeOk hf hc ha hany]
            exact ⟨u, hfind, hdf⟩
          · have hno : (w.favorites.getD []).any (sameFavorite q.content q.author) = false := by
              simpa using hany
            rw [addFavorite_new a other w q writeOk hf hc ha hno, saveUsers_users]
            apply dupFree_after_update a.users userId other u _ hfind hdf
            intro ho
            subst ho
            rw [hfind] at hf
            cases hf
            exact dupFree_append_new _ q hdf hno
  | removeFavorite other content author writeOk =>
    show ∃ v, (removeFavorite a other content author writeOk).1.users.find?
      (fun user => decide (user.id = userId)) = some v ∧ DupFree (v.favorites.getD [])
    rcases removeFavorite_users a other content author writeOk with e | ⟨favs, e⟩
    · rw [e]; exact ⟨u, hfind, hdf⟩
    · by_cases ht : (truthy content && truthy author) = true
      · cases hf : a.users.find? (fun user => decide (user.id = other)) with
        | none =>
          have e2 : removeFavorite a other content author writeOk
              = (a, Reply.error 404 "User not found") := by
            unfold removeFavorite
            simp [ht, hf]
          rw [e2]; exact ⟨u, hfind, hdf⟩
        | some w =>
          cases hfav : w.favorites with
          | none =>
            have e2 : removeFavorite a other content author writeOk
                = (a, Reply.ok 200
                    { message := "Quote removed from favorites", favorites := none }) := by
              unfold removeFavorite
              simp [ht, hf, hfav]
            rw [e2]; exact ⟨u, hfind, hdf⟩
          | some wf =>
            have e2 : (removeFavorite a other content author writeOk).1.users
                = updateUser a.users other
                    (fun x => { x with
                      favorites := some (wf.filter
                        (fun q => decide (some q.content ≠ content) ||
                          decide (some q.author ≠ author))) }) := by
              unfold removeFavorite
              simp [ht, hf, hfav, saveUsers_users]
            rw [e2]
            apply dupFree_after_update a.users userId other u _ hfind hdf
            intro ho
            subst ho
            rw [hfind] at hf
            cases hf
            rw [hfav] at hdf
            exact dupFree_filter wf _ hdf
      · have e2 : removeFavorite a other content author writeOk
            = (a, Reply.error 400 "Content and author are required") := by
          unfold removeFavorite
          simp [ht]
        rw [e2]; exact ⟨u, hfind, hdf⟩

/-- Claim C15. For every user whose favorites list has no two entries with
the same content and author, after any sequence of account requests
(addFavorite and removeFavorite for that user or another, registrations,
accepted or rejected) the favorites list of that user still has no two
entries with the same content and author. -/
theorem favorites_stay_dup_free (hash : String → String) (sign : Nat → String → String)
    (ops : List AccountOp) (userId : Nat) :
    ∀ (a : Accounts) (u : User),
      a.users.find? (fun user => decide (user.id = userId)) = some u →
      DupFree (u.favorites.getD []) →
      ∃ v, (runAccounts hash sign a ops).users.find? (fun user => decide (user.id = userId))
          = some v ∧ DupFree (v.favorites.getD []) := by
  induction ops with
  | nil => intro a u hfind hdf; exact ⟨u, hfind, hdf⟩
  | cons op ops ih =>
    intro a u hfind hdf
    obtain ⟨v, hv, hdv⟩ := dupFree_applyAccountOp hash sign a op userId u hfind hdf
    exact ih (applyAccountOp hash sign a op) v hv hdv

/-- Claim C15 on the store where ann has one favorite, for two additions of
the same quote, a removal and a further addition. -/
theorem favorites_stay_dup_free_witness :
    ∃ v, (runAccounts id (fun _ name => name) annWithFavorite
        [AccountOp.addFavorite 1 (some ⟨"Festina lente.", "Augustus", [], none⟩) true,
          AccountOp.addFavorite 1 (some ⟨"Festina lente.", "Augustus", [], none⟩) false,
          AccountOp.removeFavorite 1 (some "Carpe diem.") (some "Horace") true,
          AccountOp.addFavorite 1 (some carpeDiem) true]).users.find?
          (fun user => decide (user.id = 1)) = some v ∧
      DupFree (v.favorites.getD []) :=
  favorites_stay_dup_free id (fun _ name => name) _ 1 annWithFavorite
    { id := 1, username := "ann", email := "ann@example.org", password := "digest",
      favorites := some [carpeDiem], createdAt := 0 }
    (by decide) (List.pairwise_singleton _ _)

/-! ## User submissions, persistence failures and live quotes -/

theorem addQuoteHandler_safe (s : Server) (content author : String)
    (cats : Option (List String)) (username : String) (writeOk : Bool)
    (hc : content ≠ "") (ha : author ≠ "")
    (hsafe : ∀ k ∈ cats.getD [], isInherited k = false) :
    addQuoteHandler s (some content) (some author) cats username writeOk
      = (saveQuoteCache
          { s with
            quoteCache :=
              { all := s.quoteCache.all ++
                  [⟨s.nextRef, ⟨content, author, cats.getD [], some username⟩⟩]
                byCategory := addToCategoryCaches s.quoteCache.byCategory
                  ⟨s.nextRef, ⟨content, author, cats.getD [], some username⟩⟩ }
            nextRef := s.nextRef + 1 } writeOk,
        Reply.ok 201 ⟨content, author, cats.getD [], some username⟩) := by
  have hno : categoryCachesThrow s.quoteCache.byCategory
      ⟨s.nextRef, ⟨content, author, cats.getD [], some username⟩⟩ = false :=
    categoryCachesThrow_of_safe _ _ hsafe
  unfold addQuoteHandler
  simp [truthy, hc, ha, hno]

/-- Claim C18 at its failing input. On the seed store a submission with the
category constructor is pushed to `all`, then the push to
`byCategory["constructor"]` throws: the answer is 500, no bucket is made and
nothing is saved. In every state a submission with non-empty content and
author appends its record to `all`, whether or not a record with the same
content and author is present; when none of its categories is a name
inherited from `Object.prototype` the answer is 201 with the record, which
is appended to the bucket of each of its categories, once for every
occurrence of the label, the other buckets being unchanged. -/
theorem add_user_quote_inherited_category :
    (addQuoteHandler initialServer (some "Build it.") (some "Anon") (some ["constructor"])
        "ann" true).2 = Reply.error 500 "Error adding quote" ∧
    (addQuoteHandler initialServer (some "Build it.") (some "Anon") (some ["constructor"])
        "ann" true).1.quoteCache.all
      = initialServer.quoteCache.all ++
        [⟨15, ⟨"Build it.", "Anon", ["constructor"], some "ann"⟩⟩] ∧
    getBucket (addQuoteHandler initialServer (some "Build it.") (some "Anon")
        (some ["constructor"]) "ann" true).1.quoteCache.byCategory "constructor" = none ∧
    (addQuoteHandler initialServer (some "Build it.") (some "Anon") (some ["constructor"])
        "ann" true).1.cacheFile = none ∧
    (∀ (s : Server) (content author : String) (cats : Option (List String))
        (username : String) (writeOk : Bool), content ≠ "" → author ≠ "" →
      (addQuoteHandler s (some content) (some author) cats username writeOk).1.quoteCache.all
        = s.quoteCache.all ++
          [⟨s.nextRef, ⟨content, author, cats.getD [], some username⟩⟩]) ∧
    (∀ (s : Server) (content author : String) (cats : Option (List String))
        (username : String) (writeOk : Bool), content ≠ "" → author ≠ "" →
      (∀ k ∈ cats.getD [], isInherited k = false) →
      (addQuoteHandler s (some content) (some author) cats username writeOk).2
        = Reply.ok 201 ⟨content, author, cats.getD [], some username⟩ ∧
      ∀ label : String,
        getBucket (addQuoteHandler s (some content) (some author) cats username
            writeOk).1.quoteCache.byCategory label
          = if label ∈ cats.getD [] then
              some ((getBucket s.quoteCache.byCategory label).getD [] ++
                List.replicate ((cats.getD []).count label)
                  ⟨s.nextRef, ⟨content, author, cats.getD [], some username⟩⟩)
            else getBucket s.quoteCache.byCategory label) := by
  refine ⟨by decide, by decide, by decide, by decide, ?_, ?_⟩
  · intro s content author cats username writeOk hc ha
    rw [addQuoteHandler_quoteCache]
    simp [truthy, hc, ha]
  · intro s content author cats username writeOk hc ha hsafe
    rw [addQuoteHandler_safe s content author cats username writeOk hc ha hsafe]
    refine ⟨rfl, ?_⟩
    intro label
    rw [saveQuoteCache_quoteCache]
    exact getBucket_addToCategoryCaches s.quoteCache.byCategory
      ⟨s.nextRef, ⟨content, author, cats.getD [], some username⟩⟩ label hsafe

/-- Claim C19. For register, addFavorite, removeFavorite and the submission of
a quote, in every state and for every request, the answer and the state in
memory (the array of users; the cache and the next object identity) are the
same whether the write of the snapshot succeeds or fails. -/
theorem persistence_failure_invisible :
    (∀ (a : Accounts) (username email password : Option String) (hash : String → String)
        (sign : Nat → String → String) (now : Nat),
      (register a username email password hash sign now true).2
        = (register a username email password hash sign now false).2 ∧
      (register a username email password hash sign now true).1.users
        = (register a username email password hash sign now false).1.users) ∧
    (∀ (a : Accounts) (userId : Nat) (quote : Option Quote),
      (addFavorite a userId quote true).2 = (addFavorite a userId quote false).2 ∧
      (addFavorite a userId quote true).1.users = (addFavorite a userId quote false).1.users) ∧
    (∀ (a : Accounts) (userId : Nat) (content author : Option String),
      (removeFavorite a userId content author true).2
        = (removeFavorite a userId content author false).2 ∧
      (removeFavorite a userId content author true).1.users
        = (removeFavorite a userId content author false).1.users) ∧
    (∀ (s : Server) (content author : Option String) (cats : Option (List String))
        (username : String),
      (addQuoteHandler s content author cats username true).2
        = (addQuoteHandler s content author cats username false).2 ∧
      (addQuoteHandler s content author cats username true).1.quoteCache
        = (addQuoteHandler s content author cats username false).1.quoteCache ∧
      (addQuoteHandler s content author cats username true).1.nextRef
        = (addQuoteHandler s content author cats username false).1.nextRef) := by
  refine ⟨?_, ?_, ?_, ?_⟩
  · intro a username email password hash sign now
    rw [register_unfold, register_unfold]
    split_ifs <;> simp [saveUsers_users]
  · intro a userId quote
    cases quote with
    | none => exact ⟨rfl, rfl⟩
    | some q =>
      by_cases hq : q.content = "" ∨ q.author = ""
      · simp [addFavorite, hq]
      · cases hf : a.users.find? (fun user => decide (user.id = userId)) with
        | none => simp [addFavorite, hq, hf]
        | some u =>
          by_cases hany : (u.favorites.getD []).any (sameFavorite q.content q.author) = true
          · simp [addFavorite, hq, hf, hany]
          · simp [addFavorite, hq, hf, hany, saveUsers_users]
  · intro a userId content author
    by_cases ht : (truthy content && truthy author) = true
    · cases hf : a.users.find? (fun user => decide (user.id = userId)) with
      | none => simp [removeFavorite, ht, hf]
      | some u =>
        cases hfav : u.favorites with
        | none => simp [removeFavorite, ht, hf, hfav]
        | some favs => simp [removeFavorite, ht, hf, hfav, saveUsers_users]
    · simp [removeFavorite, ht]
  · intro s content author cats username
    refine ⟨?_, ?_, ?_⟩
    · unfold addQuoteHandler
      by_cases hv : (truthy content && truthy author) = true
      · by_cases ht : categoryCachesThrow s.quoteCache.byCategory
            ⟨s.nextRef, ⟨content.getD "", author.getD "", cats.getD [], some username⟩⟩ = true
        · simp only [hv, ht, if_true]
        · simp only [hv, ht, if_true, Bool.false_eq_true, if_false]
      · simp only [hv, Bool.false_eq_true, if_false]
    · rw [addQuoteHandler_quoteCache, addQuoteHandler_quoteCache]
    · rw [addQuoteHandler_nextRef, addQuoteHandler_nextRef]

theorem randomIndex_zero (n : Nat) : randomIndex 0 n = 0 := by
  simp [randomIndex]

theorem randomMergeThrows_of_safe (s : Server) (p : ProviderQuote)
    (hsafe : ∀ k ∈ (toQuote p).categories, isInherited k = false) :
    randomMergeThrows s p = false := by
  have hno : categoryCachesThrow s.quoteCache.byCategory ⟨s.nextRef, toQuote p⟩ = false :=
    categoryCachesThrow_of_safe _ _ hsafe
  unfold randomMergeThrows
  rw [hno]
  simp

/-- Claim C20 at its failing input. On the seed store the provider answers
with a record tagged constructor: the record is pushed to `all`, the push to
`byCategory["constructor"]` throws, the inner `catch` takes it for a failed
request and the answer is drawn from `all`: for the draw 0 it is the first
seed record, not the live one. In every state `all` holds a record with the
content and author of the response after the handler; when none of the tags
is a name inherited from `Object.prototype` the answer is the record made of
the content, the author and the tags of the response (no tags: the empty
list). -/
theorem live_random_quote_inherited_tag :
    randomMergeThrows initialServer buildIt = true ∧
    (randomQuoteHandler initialServer (some buildIt) 0).2
      = Reply.ok 200 (some ⟨"Be yourself; everyone else is already taken.", "Oscar Wilde",
          ["wisdom", "inspiration"], none⟩) ∧
    (randomQuoteHandler initialServer (some buildIt) 0).2
      ≠ Reply.ok 200 (some (toQuote buildIt)) ∧
    (randomQuoteHandler initialServer (some buildIt) 0).1.quoteCache.all
      = initialServer.quoteCache.all ++ [⟨15, toQuote buildIt⟩] ∧
    (∀ (s : Server) (p : ProviderQuote) (r : ℚ),
      ∃ x ∈ (randomQuoteHandler s (some p) r).1.quoteCache.all,
        x.val.content = p.content ∧ x.val.author = p.author) ∧
    (∀ (s : Server) (p : ProviderQuote) (r : ℚ),
      (∀ k ∈ (toQuote p).categories, isInherited k = false) →
      (randomQuoteHandler s (some p) r).2
        = Reply.ok 200 (some ⟨p.content, p.author, p.tags.getD [], none⟩)) := by
  have hthrow : randomMergeThrows initialServer buildIt = true := by decide
  have hreply : (randomQuoteHandler initialServer (some buildIt) 0).2
      = Reply.ok 200 (some ⟨"Be yourself; everyone else is already taken.", "Oscar Wilde",
          ["wisdom", "inspiration"], none⟩) := by
    simp only [randomQuoteHandler, hthrow, if_true, randomIndex_zero]
    decide
  refine ⟨hthrow, hreply, ?_, ?_, ?_, ?_⟩
  · rw [hreply]
    decide
  · rw [randomQuoteHandler_state]
    decide
  · intro s p r
    rw [randomQuoteHandler_state]
    have h := randomMerge_has_match s p
    obtain ⟨x, hx, hm⟩ := List.any_eq_true.mp h
    refine ⟨x, hx, ?_⟩
    simpa [sameQuote, toQuote] using hm
  · intro s p r hsafe
    simp only [randomQuoteHandler, randomMergeThrows_of_safe s p hsafe, Bool.false_eq_true,
      if_false]
    rfl

/-! ## The seed scenario and the lower-cased label -/

/-- Claim C21. On the initial seed store with the provider unavailable, the
category read for wisdom (which lower-casing leaves as it is) answers with a
sequence that contains the record of Oscar Wilde, and every record of the
answer has wisdom among its categories. -/
theorem seed_wisdom_scenario (toLowerCase : String → String)
    (hfix : toLowerCase "wisdom" = "wisdom") :
    ∃ quotes : List Quote,
      categoryHandler toLowerCase initialServer "wisdom" none
        = (initialServer, Reply.ok 200 (some quotes)) ∧
      ⟨"Be yourself; everyone else is already taken.", "Oscar Wilde",
        ["wisdom", "inspiration"], none⟩ ∈ quotes ∧
      (∀ q ∈ quotes, "wisdom" ∈ q.categories) ∧
      quotes.length = 7 := by
  have h : categoryRead initialServer "wisdom" none
      = (initialServer, Reply.ok 200
          (some (fallbackQuotes.filter (fun q => decide ("wisdom" ∈ q.categories))))) := by
    decide
  refine ⟨fallbackQuotes.filter (fun q => decide ("wisdom" ∈ q.categories)), ?_, by decide,
    by decide, by decide⟩
  unfold categoryHandler
  rw [hfix]
  exact h

/-- Claim C21 with the lower-casing of ASCII letters. -/
theorem seed_wisdom_scenario_witness :
    asciiLower "wisdom" = "wisdom" ∧
    ∃ quotes : List Quote,
      categoryHandler asciiLower initialServer "wisdom" none
        = (initialServer, Reply.ok 200 (some quotes)) ∧
      ⟨"Be yourself; everyone else is already taken.", "Oscar Wilde",
        ["wisdom", "inspiration"], none⟩ ∈ quotes ∧
      (∀ q ∈ quotes, "wisdom" ∈ q.categories) ∧
      quotes.length = 7 :=
  ⟨by decide, seed_wisdom_scenario asciiLower (by decide)⟩

theorem ofNat_toNat_of_small (n : Nat) (h : n < 55296) : (Char.ofNat n).toNat = n := by
  have hvalid : n.isValidChar := Or.inl h
  unfold Char.ofNat
  rw [dif_pos hvalid]
  rfl

theorem char_toLower_idem (c : Char) : c.toLower.toLower = c.toLower := by
  unfold Char.toLower
  simp only []
  by_cases h : c.toNat ≥ 65 ∧ c.toNat ≤ 90
  · rw [if_pos h]
    have hv : (Char.ofNat (c.toNat + 32)).toNat = c.toNat + 32 :=
      ofNat_toNat_of_small _ (by omega)
    rw [if_neg (by rw [hv]; omega)]
  · rw [if_neg h, if_neg h]

theorem asciiLower_idem (label : String) : asciiLower (asciiLower label) = asciiLower label := by
  unfold asciiLower
  simp only [List.map_map]
  congr 1
  apply List.map_congr_left
  intro c _
  exact char_toLower_idem c

/-- Claim C22. The handler looks at the label only through its lower-cased
form. So for every state, label and provider outcome, the unavailable
provider among them, and every lower-casing function that leaves the
lower-cased label as it is, the category read for the label gives the same
answer and the same state as the category read for the lower-cased label;
WISDOM and wisdom give the same result as soon as they have the same
lower-cased form. -/
theorem category_label_lowercased (toLowerCase : String → String) (s : Server)
    (label : String) (provider : Option (List ProviderQuote))
    (hidem : toLowerCase (toLowerCase label) = toLowerCase label) :
    categoryHandler toLowerCase s label provider
      = categoryRead s (toLowerCase label) provider ∧
    categoryHandler toLowerCase s label none
      = categoryHandler toLowerCase s (toLowerCase label) none ∧
    categoryHandler toLowerCase s label provider
      = categoryHandler toLowerCase s (toLowerCase label) provider ∧
    (toLowerCase "WISDOM" = toLowerCase "wisdom" →
      categoryHandler toLowerCase s "WISDOM" provider
        = categoryHandler toLowerCase s "wisdom" provider) := by
  refine ⟨rfl, ?_, ?_, ?_⟩
  · unfold categoryHandler
    rw [hidem]
  · unfold categoryHandler
    rw [hidem]
  · intro h
    unfold categoryHandler
    rw [h]

/-- Claim C22 with the lower-casing of ASCII letters: it is idempotent, the
lower-cased WISDOM is wisdom, and on the seed store the reads for WISDOM and
for wisdom give the same answer. -/
theorem category_label_lowercased_witness :
    asciiLower (asciiLower "WISDOM") = asciiLower "WISDOM" ∧
    asciiLower "WISDOM" = "wisdom" ∧
    categoryHandler asciiLower initialServer "WISDOM" none
      = categoryHandler asciiLower initialServer "wisdom" none := by
  have h := (category_label_lowercased asciiLower initialServer "WISDOM" none
    (asciiLower_idem "WISDOM")).2.1
  have hl : asciiLower "WISDOM" = "wisdom" := by decide
  rw [hl] at h
  exact ⟨asciiLower_idem "WISDOM", hl, h⟩

/-! ## The full collection only grows -/

theorem fresh_append (all l : List QuoteObj) (n k m : Nat)
    (hnd : (all.map (fun q => q.ref)).Nodup) (hlt : ∀ x ∈ all, x.ref < n)
    (hsub : (l.map (fun q => q.ref)).Sublist (List.range' n k)) (hm : n + k ≤ m) :
    ((all ++ l).map (fun q => q.ref)).Nodup ∧ ∀ x ∈ all ++ l, x.ref < m := by
  constructor
  · rw [List.map_append, List.nodup_append]
    refine ⟨hnd, List.Nodup.sublist hsub (List.nodup_range' _ _), ?_⟩
    intro r h1 h2
    obtain ⟨x, hx, rfl⟩ := List.mem_map.mp h1
    have h3 := List.mem_range'_1.mp (hsub.subset h2)
    have h4 := hlt x hx
    omega
  · intro x hx
    rcases List.mem_append.mp hx with h | h
    · have := hlt x h
      omega
    · have h3 := List.mem_range'_1.mp (hsub.subset (List.mem_map_of_mem (fun q => q.ref) h))
      omega

theorem fresh_step (s t : Server) (l : List QuoteObj) (k : Nat)
    (hall : t.quoteCache.all = s.quoteCache.all ++ l)
    (hsub : (l.map (fun q => q.ref)).Sublist (List.range' s.nextRef k))
    (hnext : s.nextRef + k ≤ t.nextRef) (h : FreshRefs s) :
    FreshRefs t ∧ s.quoteCache.all <+: t.quoteCache.all := by
  have hf := fresh_append s.quoteCache.all l s.nextRef k t.nextRef h.1 h.2 hsub hnext
  unfold FreshRefs
  rw [hall]
  exact ⟨hf, List.prefix_append _ _⟩

theorem categoryFold_all (k : String) (objs : List QuoteObj) :
    ∀ c : QuoteCache, ∃ l : List QuoteObj, l.Sublist objs ∧
      (objs.foldl (categoryMergeStep k) c).all = c.all ++ l := by
  induction objs with
  | nil => intro c; exact ⟨[], List.Sublist.refl _, by simp⟩
  | cons o objs ih =>
    intro c
    obtain ⟨l, hl, hfold⟩ := ih (categoryMergeStep k c o)
    by_cases ha : c.all.any (sameContent o.val) = true
    · have hstep : (categoryMergeStep k c o).all = c.all := by
        unfold categoryMergeStep
        simp only [ha, if_true]
      refine ⟨l, List.Sublist.cons _ hl, ?_⟩
      rw [List.foldl_cons, hfold, hstep]
    · have hstep : (categoryMergeStep k c o).all = c.all ++ [o] := by
        unfold categoryMergeStep
        simp only [ha, Bool.false_eq_true, if_false]
      refine ⟨o :: l, List.Sublist.cons₂ _ hl, ?_⟩
      rw [List.foldl_cons, hfold, hstep]
      simp

theorem loadCategory_next (loaded : List (String × List Quote))
    (st : List (String × List QuoteObj) × Nat × Bool) (category : String) :
    st.2.1 ≤ (loadCategory loaded st category).2.1 := by
  obtain ⟨m, next, thrown⟩ := st
  cases thrown with
  | true => simp [loadCategory]
  | false =>
    cases h1 : savedBucket loaded category with
    | none => simp [loadCategory, h1]
    | some saved =>
      cases h2 : getBucket m category with
      | none => simp [loadCategory, h1, h2]
      | some existing => simp [loadCategory, h1, h2]

theorem loadFold_next (loaded : List (String × List Quote)) (cats : List String) :
    ∀ st : List (String × List QuoteObj) × Nat × Bool,
      st.2.1 ≤ (cats.foldl (loadCategory loaded) st).2.1 := by
  induction cats with
  | nil => intro st; exact Nat.le_refl _
  | cons c cats ih =>
    intro st
    exact Nat.le_trans (loadCategory_next loaded st c) (ih _)

theorem loadQuoteCache_nextRef (s : Server) (loaded : SavedCache)
    (h : s.cacheFile = some loaded) :
    s.nextRef + loaded.all.length ≤ (loadQuoteCache s).nextRef := by
  have hn : (loadQuoteCache s).nextRef
      = (categories.foldl (loadCategory loaded.byCategory)
          (s.quoteCache.byCategory, s.nextRef + loaded.all.length, false)).2.1 := by
    unfold loadQuoteCache
    rw [h]
  rw [hn]
  exact loadFold_next loaded.byCategory categories
    (s.quoteCache.byCategory, s.nextRef + loaded.all.length, false)

theorem sublist_range_nil (n : Nat) :
    (([] : List QuoteObj).map (fun q => q.ref)).Sublist (List.range' n 0) := by
  simp

theorem sublist_range_single (n : Nat) (q : Quote) :
    (([⟨n, q⟩] : List QuoteObj).map (fun x => x.ref)).Sublist (List.range' n 1) := by
  simp

theorem freshRefs_applyOp (s : Server) (op : Op) (h : FreshRefs s) :
    FreshRefs (applyOp s op) ∧ s.quoteCache.all <+: (applyOp s op).quoteCache.all := by
  cases op with
  | random p =>
    show FreshRefs (randomQuoteHandler s (some p) 0).1 ∧
      s.quoteCache.all <+: (randomQuoteHandler s (some p) 0).1.quoteCache.all
    rw [randomQuoteHandler_state]
    by_cases hp : s.quoteCache.all.any (sameQuote (toQuote p)) = true
    · apply fresh_step s _ [] 0 _ (sublist_range_nil _) _ h
      · unfold randomMerge
        simp only [hp, if_true, List.append_nil]
      · unfold randomMerge
        simp only [hp, if_true]
        omega
    · apply fresh_step s _ [⟨s.nextRef, toQuote p⟩] 1 _ (sublist_range_single _ _) _ h
      · unfold randomMerge
        simp only [hp, Bool.false_eq_true, if_false]
      · unfold randomMerge
        simp only [hp, Bool.false_eq_true, if_false]
        omega
  | category label results =>
    cases results with
    | nil =>
      exact fresh_step s s [] 0 (by simp) (sublist_range_nil _) (by omega) h
    | cons r rs =>
      show FreshRefs (categoryRead s label (some (r :: rs))).1 ∧
        s.quoteCache.all <+: (categoryRead s label (some (r :: rs))).1.quoteCache.all
      rw [categoryRead_state]
      rcases categoryMerge_cases s label r rs with ⟨_, _, hsame⟩ | ⟨_, _, c0, hall, _, hfold⟩
      · apply fresh_step s _ [] (r :: rs).length _ (by simp) _ h
        · rw [hsame, List.append_nil]
        · rw [categoryMerge_nextRef]
      · obtain ⟨l, hl, hl2⟩ := categoryFold_all label
          (allocate s.nextRef ((r :: rs).map toQuote)) c0
        have hrefs : (l.map (fun q => q.ref)).Sublist
            (List.range' s.nextRef ((r :: rs).map toQuote).length) := by
          rw [← allocate_map_ref]
          exact List.Sublist.map _ hl
        apply fresh_step s _ l _ _ hrefs _ h
        · rw [hfold, hl2, hall]
        · rw [categoryMerge_nextRef]
          simp
  | addQuote content author cats username writeOk =>
    show FreshRefs (addQuoteHandler s content author cats username writeOk).1 ∧
      s.quoteCache.all <+: (addQuoteHandler s content author cats username writeOk).1.quoteCache.all
    by_cases hv : (truthy content && truthy author) = true
    · apply fresh_step s _
        [⟨s.nextRef, ⟨content.getD "", author.getD "", cats.getD [], some username⟩⟩] 1 _
        (sublist_range_single _ _) _ h
      · rw [addQuoteHandler_quoteCache, if_pos hv]
      · rw [addQuoteHandler_nextRef, if_pos hv]
    · apply fresh_step s _ [] 0 _ (sublist_range_nil _) _ h
      · rw [addQuoteHandler_quoteCache, if_neg hv, List.append_nil]
      · rw [addQuoteHandler_nextRef, if_neg hv]
        omega
  | save writeOk =>
    show FreshRefs (saveQuoteCache s writeOk) ∧
      s.quoteCache.all <+: (saveQuoteCache s writeOk).quoteCache.all
    apply fresh_step s _ [] 0 _ (sublist_range_nil _) _ h
    · rw [saveQuoteCache_quoteCache, List.append_nil]
    · rw [saveQuoteCache_nextRef]; omega
  | load =>
    show FreshRefs (loadQuoteCache s) ∧ s.quoteCache.all <+: (loadQuoteCache s).quoteCache.all
    cases hfile : s.cacheFile with
    | none =>
      have hsame : loadQuoteCache s = s := by
        unfold loadQuoteCache
        rw [hfile]
      rw [hsame]
      exact ⟨h, List.prefix_rfl⟩
    | some loaded =>
      have hrefs : ((allocate s.nextRef loaded.all).map (fun q => q.ref)).Sublist
          (List.range' s.nextRef loaded.all.length) := by
        rw [allocate_map_ref]
      have hnd := (fresh_append s.quoteCache.all (allocate s.nextRef loaded.all) s.nextRef
        loaded.all.length (s.nextRef + loaded.all.length) h.1 h.2 hrefs (Nat.le_refl _)).1
      apply fresh_step s _ (allocate s.nextRef loaded.all) loaded.all.length _ hrefs _ h
      · rw [loadQuoteCache_all s loaded hfile, setOf_of_nodup _ _ hnd]
      · exact loadQuoteCache_nextRef s loaded hfile

theorem freshRefs_run (ops : List Op) :
    ∀ s : Server, FreshRefs s →
      FreshRefs (run s ops) ∧ s.quoteCache.all <+: (run s ops).quoteCache.all := by
  induction ops with
  | nil => intro s h; exact ⟨h, List.prefix_rfl⟩
  | cons op ops ih =>
    intro s h
    obtain ⟨h1, h2⟩ := freshRefs_applyOp s op h
    obtain ⟨h3, h4⟩ := ih (applyOp s op) h1
    exact ⟨h3, List.IsPrefix.trans h2 h4⟩

theorem categories_not_inherited : ∀ c ∈ categories, isInherited c = false := by
  decide

theorem freshRefs_start (file : Option SavedCache) : FreshRefs (startServer file) := by
  have h : (fallbackObjs.map (fun q => q.ref)).Nodup ∧ ∀ x ∈ fallbackObjs, x.ref < 15 := by
    decide
  exact h

/-- Claim C23. Whatever `quoteCache.json` holds at start-up, in every state
reached from the seed store by random-quote merges, category merges, user
submissions, snapshot writes and snapshot loads, `all` begins with the seed
objects: it is not empty and holds every seed record. No operation removes
or replaces an element: `all` before an operation is an initial segment of
`all` after it. -/
theorem all_keeps_seeds (file : Option SavedCache) (ops : List Op) :
    fallbackObjs <+: (run (startServer file) ops).quoteCache.all ∧
    (run (startServer file) ops).quoteCache.all ≠ [] ∧
    (∀ q ∈ fallbackQuotes,
      q ∈ (run (startServer file) ops).quoteCache.all.map (fun x => x.val)) ∧
    ∀ op : Op, (run (startServer file) ops).quoteCache.all
      <+: (applyOp (run (startServer file) ops) op).quoteCache.all := by
  obtain ⟨hfresh, hprefix⟩ := freshRefs_run ops (startServer file) (freshRefs_start file)
  have hpre : fallbackObjs <+: (run (startServer file) ops).quoteCache.all := hprefix
  have hmem : ∀ x ∈ fallbackObjs, x ∈ (run (startServer file) ops).quoteCache.all :=
    fun x hx => List.IsPrefix.subset hpre hx
  refine ⟨hpre, ?_, ?_, ?_⟩
  · intro hnil
    have h0 : (⟨0, ⟨"Be yourself; everyone else is already taken.", "Oscar Wilde",
        ["wisdom", "inspiration"], none⟩⟩ : QuoteObj) ∈ fallbackObjs := by decide
    have h1 := hmem _ h0
    rw [hnil] at h1
    simp at h1
  · intro q hq
    have hq2 : q ∈ fallbackObjs.map (fun x => x.val) := by
      unfold fallbackObjs
      rw [allocate_map_val]
      exact hq
    obtain ⟨x, hx, hv⟩ := List.mem_map.mp hq2
    exact List.mem_map.mpr ⟨x, hmem x hx, hv⟩
  · intro op
    exact (freshRefs_applyOp _ op hfresh).2

/-! ## Adding then removing a favorite -/

theorem updateUser_twice (f g : User → User) (hf : ∀ u, (f u).id = u.id) (userId : Nat)
    (users : List User) :
    updateUser (updateUser users userId f) userId g = updateUser users userId (fun u => g (f u)) := by
  induction users with
  | nil => rfl
  | cons u rest ih =>
    by_cases h : u.id = userId
    · have h2 : (f u).id = userId := by rw [hf]; exact h
      simp [updateUser, h, h2]
    · simp [updateUser, h, ih]

theorem getElem_updateUser_other (f : User → User) (userId : Nat) (users : List User) :
    ∀ (k : Nat) (v : User), users.get? k = some v → v.id ≠ userId →
      (updateUser users userId f).get? k = some v := by
  induction users with
  | nil => intro k v h; simp at h
  | cons u rest ih =>
    intro k v h hne
    by_cases hu : u.id = userId
    · cases k with
      | zero =>
        simp at h
        subst h
        exact absurd hu hne
      | succ k => simpa [updateUser, hu] using h
    · cases k with
      | zero => simpa [updateUser, hu] using h
      | succ k =>
        simp only [updateUser, hu, if_false, List.get?_cons_succ]
        exact ih k v (by simpa using h) hne

theorem filter_after_push (favs : List Quote) (q : Quote)
    (hno : favs.any (sameFavorite q.content q.author) = false) :
    (favs ++ [q]).filter (fun x => !(sameFavorite q.content q.author x)) = favs := by
  rw [List.filter_append]
  have h1 : favs.filter (fun x => !(sameFavorite q.content q.author x)) = favs := by
    rw [List.filter_eq_self]
    intro x hx
    rw [List.any_eq_false] at hno
    have := hno x hx
    simpa using this
  have h2 : [q].filter (fun x => !(sameFavorite q.content q.author x)) = [] := by
    simp [sameFavorite]
  rw [h1, h2, List.append_nil]

/-- Claim C24. For every known user whose favorites hold no entry with the
content and author of q, an accepted addFavorite of q followed by
removeFavorite with the content and author of q answers with the original
list, stores it, and leaves every other user record as it was; when the
record had a favorites array, the whole array of users is as before. -/
theorem add_then_remove_round_trip (a : Accounts) (userId : Nat) (u : User) (q : Quote)
    (w1 w2 : Bool)
    (hfind : a.users.find? (fun user => decide (user.id = userId)) = some u)
    (hc : q.content ≠ "") (ha : q.author ≠ "")
    (hno : (u.favorites.getD []).any (sameFavorite q.content q.author) = false) :
    (addFavorite a userId (some q) w1).2
      = Reply.ok 201
          { message := "Quote added to favorites"
            favorites := some (u.favorites.getD [] ++ [q]) } ∧
    (removeFavorite (addFavorite a userId (some q) w1).1 userId (some q.content)
        (some q.author) w2).2
      = Reply.ok 200
          { message := "Quote removed from favorites"
            favorites := some (u.favorites.getD []) } ∧
    favoritesOf (removeFavorite (addFavorite a userId (some q) w1).1 userId (some q.content)
        (some q.author) w2).1 userId = some (u.favorites.getD []) ∧
    (∀ (k : Nat) (v : User), a.users.get? k = some v → v.id ≠ userId →
      (removeFavorite (addFavorite a userId (some q) w1).1 userId (some q.content)
        (some q.author) w2).1.users.get? k = some v) ∧
    (u.favorites ≠ none →
      (removeFavorite (addFavorite a userId (some q) w1).1 userId (some q.content)
        (some q.author) w2).1.users = a.users) := by
  have hadd := addFavorite_new a userId u q w1 hfind hc ha hno
  have hfind1 := find_update_favorites a userId u (u.favorites.getD [] ++ [q]) w1 hfind
  have hrem := removeFavorite_found _ userId _ (u.favorites.getD [] ++ [q]) q.content q.author
    w2 hfind1 rfl hc ha
  rw [filter_after_push _ q hno] at hrem
  have husers : (removeFavorite (addFavorite a userId (some q) w1).1 userId (some q.content)
      (some q.author) w2).1.users
      = updateUser a.users userId (fun v => { v with favorites := some (u.favorites.getD []) }) := by
    rw [hadd, hrem, saveUsers_users]
    show updateUser (saveUsers _ w1).users userId _ = _
    rw [saveUsers_users]
    exact updateUser_twice (fun v => { v with favorites := some (u.favorites.getD [] ++ [q]) })
      (fun v => { v with favorites := some (u.favorites.getD []) }) (fun _ => rfl) userId a.users
  refine ⟨?_, ?_, ?_, ?_, ?_⟩
  · rw [hadd]
  · rw [hadd, hrem]
  · rw [hadd, hrem]
    exact favoritesOf_update _ userId _ _ w2 hfind1
  · intro k v hk hne
    rw [husers]
    exact getElem_updateUser_other _ userId a.users k v hk hne
  · intro hsome
    rw [husers]
    apply updateUser_fixed _ userId a.users u hfind
    cases u with
    | mk id username email password favorites createdAt =>
      cases favorites with
      | none => exact absurd rfl hsome
      | some favs => rfl

/-- Claim C24 on the store where ann has one favorite: a second quote is added
and removed, and the array of users is as before. -/
theorem add_then_remove_round_trip_witness :
    (removeFavorite
        (addFavorite annWithFavorite 1 (some ⟨"Festina lente.", "Augustus", [], none⟩) true).1
        1 (some "Festina lente.") (some "Augustus") true).2
      = Reply.ok 200
          { message := "Quote removed from favorites", favorites := some [carpeDiem] } ∧
    (removeFavorite
        (addFavorite annWithFavorite 1 (some ⟨"Festina lente.", "Augustus", [], none⟩) true).1
        1 (some "Festina lente.") (some "Augustus") true).1.users = annWithFavorite.users :=
  ⟨(add_then_remove_round_trip annWithFavorite 1
      { id := 1, username := "ann", email := "ann@example.org", password := "digest",
        favorites := some [carpeDiem], createdAt := 0 }
      ⟨"Festina lente.", "Augustus", [], none⟩ true true (by decide) (by decide) (by decide)
      (by decide)).2.1,
    (add_then_remove_round_trip annWithFavorite 1
      { id := 1, username := "ann", email := "ann@example.org", password := "digest",
        favorites := some [carpeDiem], createdAt := 0 }
      ⟨"Festina lente.", "Augustus", [], none⟩ true true (by decide) (by decide) (by decide)
      (by decide)).2.2.2.2 (by decide)⟩

end QuoteApp
